import Mathlib

/-!
# asio-libcurl: the multiplex coordinator

A shallow embedding of `src/asio_libcurl/asio-libcurl.cpp`.

The program glues two external libraries: the transfer engine (libcurl's multi-socket
interface) and the reactor (asio's `io_context`, `steady_timer` and `tcp::socket`).
Neither library is part of the program, so

* the engine is an oracle: every `curl_multi_socket_action` call receives a `Drive`, the list of
  callbacks the engine issues during the call (`socket_callback`, `timer_callback`,
  `write_callback`), the running count it reports and the messages it queues;
* the reactor is explicit state: the waits armed on each socket and on the timer, and the queue
  of handlers that are ready to run (posted handlers and the handlers of cancelled waits, which
  asio invokes with `operation_aborted`).

`Session` objects live in a heap of slots; `delete` marks the slot freed, and every later access
through a pointer to it is the fault `useAfterFree`.
-/

namespace AsioLibcurl

/-! ## Constants of `curl/curl.h` -/

/-- Modelled from the spec: the constant `CURL_POLL_IN` of `curl/curl.h` (not under `src/`), the
`readable` bit of the want-set bitmask; the header gives it the value 1. -/
def CURL_POLL_IN : Int := 1

/-- Modelled from the spec: the constant `CURL_POLL_OUT` of `curl/curl.h` (not under `src/`), the
`writable` bit of the want-set bitmask; the header gives it the value 2. -/
def CURL_POLL_OUT : Int := 2

/-- Modelled from the spec: the constant `CURL_POLL_REMOVE` of `curl/curl.h` (not under `src/`),
the `remove` value of a want-set notification; the header gives it the value 4. -/
def CURL_POLL_REMOVE : Int := 4

/-- Modelled from the spec: the constant `CURL_CSELECT_ERR` of `curl/curl.h` (not under `src/`),
the distinct event kind that stands for a reactor-reported error; the header gives it the
value 4. -/
def CURL_CSELECT_ERR : Int := 4

/-- Modelled from the spec: the constant `CURL_SOCKET_TIMEOUT` of `curl/curl.h` (not under
`src/`), the `no socket` argument of a time-based drive; the header gives it the value -1. -/
def CURL_SOCKET_TIMEOUT : Int := -1

/-- Modelled from the spec: the constant `CURLMSG_DONE` of `curl/curl.h` (not under `src/`), the
message kind by which the engine reports a transfer done; the header gives it the value 1. -/
def CURLMSG_DONE : Int := 1

/-- The width of `size_t` on the platforms the program is built for. -/
def SIZE_WIDTH : Nat := 64

/-! ## Data model -/

/-- The wait kinds of `asio::ip::tcp::socket::wait_type` the program uses. -/
inductive WaitType where
  | wait_read
  | wait_write
deriving DecidableEq

/-- A one-shot wait armed on a socket together with the arguments bound into its handler
`asio_socket_callback(_1, easy, s, what, session)`. -/
structure SocketWait where
  kind : WaitType
  easy : Nat
  s : Int
  what : Int
  session : Nat
deriving DecidableEq

/-- A handler the reactor will invoke: `asio_timer_callback(error)` (bound to a timer wait or
posted by `timer_callback`) or `asio_socket_callback(ec, easy, s, what, session)`. The Boolean is
whether the error code is set. -/
inductive Handler where
  | timer (error : Bool)
  | socket (ec : Bool) (easy : Nat) (s : Int) (what : Int) (session : Nat)
deriving DecidableEq

/-- The member `socket_` of a Session: whether it is open, its native handle, and the waits
armed on it. -/
structure TcpSocket where
  is_open : Bool
  native_handle : Int
  waits : List SocketWait
deriving DecidableEq

/-- The class `Session` (lines 129-191). `error_` is only handed to the engine and
`finish_callback_` is the sink, whose invocations are recorded in `World.sinkLog`. -/
structure Session where
  easy_ : Nat
  url_ : String
  html_ : List UInt8
  socket_ : TcpSocket
  newest_event_ : Int
  finished_ : Bool
deriving DecidableEq

/-- A heap cell holding a Session; `freed` is set by `delete`. -/
structure Slot where
  obj : Session
  freed : Bool
deriving DecidableEq

/-- A message of the engine's completion queue (`CURLMsg`). -/
structure CURLMsg where
  msg : Int
  easy_handle : Nat
deriving DecidableEq

/-- A callback the engine issues while it is driven. -/
inductive EngineCall where
  | socket (easy : Nat) (s : Int) (what : Int)
  | timer (timeout_ms : Int)
  | write (userdata : Nat) (ptr : List UInt8) (size : Nat) (nmemb : Nat)
deriving DecidableEq

/-- What the engine does during one `curl_multi_socket_action` call: the callbacks it issues, in
order, the running count it stores, and the messages it appends to its completion queue. -/
structure Drive where
  calls : List EngineCall
  running : Int
  msgs : List CURLMsg
deriving DecidableEq

/-- A record of one `curl_multi_socket_action` call: its socket and event arguments and what
the engine did. -/
structure DriveRecord where
  sockfd : Int
  ev_bitmask : Int
  drive : Drive
deriving DecidableEq

/-- One invocation of a Session's `finish_callback_`: the Session and the two arguments. -/
structure SinkCall where
  session : Nat
  url : String
  html : List UInt8
deriving DecidableEq

/-- The member `timer_` of `MultiInfo`: the armed waits, each with the duration in milliseconds
it was armed for. -/
structure SteadyTimer where
  waits : List Int
deriving DecidableEq

/-- The state of the whole program: the Session heap, the engine's private-pointer table
(`CURLOPT_PRIVATE`) and completion queue, the members of `MultiInfo`, the reactor's ready queue,
and two histories: the sink invocations and the engine drives. -/
structure World where
  heap : List Slot
  priv : List (Nat × Option Nat)
  msgq : List CURLMsg
  still_running_ : Int
  timer_ : SteadyTimer
  ready : List Handler
  sinkLog : List SinkCall
  engineLog : List DriveRecord
deriving DecidableEq

/-- The ways a handler can leave defined behaviour: an access through a pointer to a deleted
Session, an access through a null or uninitialised pointer, and a failed `assert` (with the
state at the abort). -/
inductive Fault where
  | useAfterFree (p : Nat)
  | badPointer
  | assertionFailed (state : World)
deriving DecidableEq

/-! ## Heap access -/

/-- Read the Session a pointer refers to. -/
def World.deref (w : World) (p : Nat) : Except Fault Session :=
  match w.heap[p]? with
  | some slot => if slot.freed then .error (.useAfterFree p) else .ok slot.obj
  | none => .error .badPointer

/-- Write back the Session a (live) pointer refers to. -/
def World.store (w : World) (p : Nat) (sess : Session) : World :=
  { w with heap := w.heap.set p { obj := sess, freed := false } }

/-- The engine call `curl_easy_getinfo(easy, CURLINFO_PRIVATE, &p)`: `none` when the call fails,
otherwise the stored pointer, which is `none` when it is null. -/
def curl_easy_getinfo (w : World) (easy : Nat) : Option (Option Nat) :=
  w.priv.lookup easy

/-! ## Reactor primitives -/

/-- The handlers of cancelled socket waits: asio invokes each with `operation_aborted`. -/
def aborted (ws : List SocketWait) : List Handler :=
  ws.map fun x => Handler.socket true x.easy x.s x.what x.session

/-- The call `timer_.cancel()`: every armed timer wait is cancelled and its handler is queued
with `operation_aborted`. -/
def timer_cancel (w : World) : World :=
  { w with
    timer_ := { waits := [] }
    ready := w.ready ++ w.timer_.waits.map fun _ => Handler.timer true }

/-- The calls `timer.expires_from_now(d)` and `timer.async_wait(...)`: setting the expiry
cancels what is armed, then one wait for `d` milliseconds is armed. -/
def timer_arm (w : World) (d : Int) : World :=
  let w1 := timer_cancel w
  { w1 with timer_ := { waits := w1.timer_.waits ++ [d] } }

/-- The call `IoContext().post(f)` where `f` runs `asio_timer_callback` with no error. -/
def post_timer (w : World) : World :=
  { w with ready := w.ready ++ [Handler.timer false] }

/-- The call `socket_.close()`: the armed waits are cancelled. -/
def TcpSocket.close (_sock : TcpSocket) : TcpSocket :=
  { is_open := false, native_handle := -1, waits := [] }

/-- The call `socket_.assign(asio::ip::tcp::v4(), s)`. -/
def TcpSocket.assign (sock : TcpSocket) (s : Int) : TcpSocket :=
  { sock with is_open := true, native_handle := s }

/-- The call `session->socket_.async_wait(kind, handler)` on the Session at `p`: the wait is
armed when the socket is open; on a closed socket the operation completes at once with an error
and its handler is queued. -/
def socket_async_wait (w : World) (p : Nat) (sess : Session) (x : SocketWait) : World :=
  if sess.socket_.is_open then
    w.store p { sess with socket_ := { sess.socket_ with waits := sess.socket_.waits ++ [x] } }
  else
    { w with ready := w.ready ++ aborted [x] }

/-! ## `Session` -/

/-- The constructor `Session(url, finish_cb)` (lines 141-148). -/
def Session.create (url : String) : Session :=
  { easy_ := 0
    url_ := url
    html_ := []
    socket_ := { is_open := false, native_handle := -1, waits := [] }
    newest_event_ := 0
    finished_ := false }

/-- The statement `new Session(url, Finish)` of `main`: the pointer is the next heap index. -/
def new_Session (w : World) (url : String) : World × Nat :=
  ({ w with heap := w.heap ++ [{ obj := Session.create url, freed := false }] }, w.heap.length)

/-- The method `Session::Init` (lines 158-179); `easy` is what `curl_easy_init` returns (0 for
null) and `mc` what `curl_multi_add_handle` returns. -/
def Session.Init (w : World) (p : Nat) (easy : Nat) (mc : Int) : Except Fault (World × Int) :=
  match w.deref p with
  | .error f => .error f
  | .ok sess =>
    if easy = 0 then
      .ok (w.store p { sess with easy_ := 0 }, -1)
    else
      .ok ({ w.store p { sess with easy_ := easy } with priv := (easy, some p) :: w.priv }, mc)

/-- The callback `Session::write_callback` (lines 183-190): `ptr` is the memory at the pointer,
`userdata` the Session pointer; returns the new state and `written`. -/
def write_callback (w : World) (ptr : List UInt8) (size nmemb : Nat) (userdata : Nat) :
    Except Fault (World × Nat) :=
  let written := (size * nmemb) % 2 ^ SIZE_WIDTH
  let str := ptr.take written
  match w.deref userdata with
  | .error f => .error f
  | .ok s => .ok (w.store userdata { s with html_ := s.html_ ++ str }, written)

/-! ## `MultiInfo` -/

/-- The callback `MultiInfo::timer_callback` (lines 55-81). -/
def timer_callback (w : World) (timeout_ms : Int) : World :=
  let w1 := timer_cancel w
  if timeout_ms > 0 then
    timer_arm w1 timeout_ms
  else if timeout_ms = 0 then
    post_timer w1
  else
    w1

/-- The callback `MultiInfo::socket_callback` (lines 197-246). -/
def socket_callback (w : World) (easy : Nat) (s : Int) (what : Int) : Except Fault World :=
  match curl_easy_getinfo w easy with
  | none => .ok w
  | some none => .error (.assertionFailed w)
  | some (some session) =>
    match w.deref session with
    | .error f => .error f
    | .ok sess0 =>
      let sess1 := { sess0 with newest_event_ := what }
      if what = CURL_POLL_REMOVE then
        .ok { w.store session { sess1 with socket_ := sess1.socket_.close } with
              ready := w.ready ++ aborted sess1.socket_.waits }
      else
        let sess2 :=
          if sess1.socket_.is_open then sess1
          else { sess1 with socket_ := sess1.socket_.assign s }
        if ¬ sess2.socket_.is_open then
          .error (.assertionFailed (w.store session sess2))
        else if sess2.socket_.native_handle ≠ s then
          .error (.assertionFailed (w.store session sess2))
        else
          let w1 := w.store session sess2
          let w2 :=
            if Int.land what CURL_POLL_IN ≠ 0 then
              socket_async_wait w1 session sess2
                { kind := .wait_read, easy := easy, s := s, what := CURL_POLL_IN,
                  session := session }
            else w1
          if Int.land what CURL_POLL_OUT ≠ 0 then
            match w2.deref session with
            | .error f => .error f
            | .ok sess3 =>
              .ok (socket_async_wait w2 session sess3
                { kind := .wait_write, easy := easy, s := s, what := CURL_POLL_OUT,
                  session := session })
          else .ok w2

/-- One callback issued by the engine. -/
def engineCall (w : World) (c : EngineCall) : Except Fault World :=
  match c with
  | .socket easy s what => socket_callback w easy s what
  | .timer timeout_ms => .ok (timer_callback w timeout_ms)
  | .write userdata ptr size nmemb =>
    match write_callback w ptr size nmemb userdata with
    | .error f => .error f
    | .ok r => .ok r.1

/-- The callbacks of one drive, in order. -/
def engineCalls : List EngineCall → World → Except Fault World
  | [], w => .ok w
  | c :: cs, w =>
    match engineCall w c with
    | .error f => .error f
    | .ok w1 => engineCalls cs w1

/-- The engine call `curl_multi_socket_action(multi_, s, what, &still_running_)`. -/
def curl_multi_socket_action (w : World) (s : Int) (what : Int) (d : Drive) :
    Except Fault World :=
  match engineCalls d.calls w with
  | .error f => .error f
  | .ok w1 =>
    .ok { w1 with
          still_running_ := d.running
          msgq := w1.msgq ++ d.msgs
          engineLog := w1.engineLog ++ [{ sockfd := s, ev_bitmask := what, drive := d }] }

/-- The loop of `MultiInfo::check_multi_info` (lines 298-310); the first argument is the
engine's completion queue, from which every `curl_multi_info_read` takes the first message. The
sink `Finish` does not move from its second argument, so `html_` keeps its contents. -/
def check_multi_info_loop : List CURLMsg → World → Except Fault World
  | [], w => .ok w
  | m :: rest, w =>
    let w0 : World := { w with msgq := rest }
    if m.msg = CURLMSG_DONE then
      match curl_easy_getinfo w0 m.easy_handle with
      | some (some p) =>
        match w0.deref p with
        | .error f => .error f
        | .ok s =>
          let w1 : World :=
            { w0 with sinkLog := w0.sinkLog ++ [SinkCall.mk p s.url_ s.html_] }
          check_multi_info_loop rest (w1.store p { s with finished_ := true })
      | _ => .error .badPointer
    else check_multi_info_loop rest w0

/-- The function `MultiInfo::check_multi_info` (lines 295-311): reads the completion queue until
it is empty. -/
def check_multi_info (w : World) : Except Fault World :=
  check_multi_info_loop w.msgq w

/-- The callback `MultiInfo::asio_timer_callback` (lines 85-102). -/
def asio_timer_callback (error : Bool) (d : Drive) (w : World) : Except Fault World :=
  if ¬ error then
    match curl_multi_socket_action w CURL_SOCKET_TIMEOUT 0 d with
    | .error f => .error f
    | .ok w1 =>
      match check_multi_info w1 with
      | .error f => .error f
      | .ok w2 => if w2.still_running_ ≤ 0 then .ok (timer_cancel w2) else .ok w2
  else .ok w

/-- The statement `delete session`: the destructor `~Session` (lines 150-156) hands the easy
handle back to the engine (which is taken to issue no callback while it removes a handle), the
destructor of `socket_` cancels the armed waits, whose handlers asio still invokes, and the
memory is freed. The cell keeps the data the Session had. -/
def delete_session (w : World) (session : Nat) (sess : Session) : World :=
  { w with
    heap := w.heap.set session { obj := { sess with socket_ := sess.socket_.close }, freed := true }
    ready := w.ready ++ aborted sess.socket_.waits }

/-- Lines 257-268 of `MultiInfo::asio_socket_callback`: the engine drive and Drain
Completions. -/
def asio_socket_callback_drive (ec : Bool) (s : Int) (what : Int) (d : Drive) (w : World) :
    Except Fault World :=
  let what1 := if ec then CURL_CSELECT_ERR else what
  match curl_multi_socket_action w s what1 d with
  | .error f => .error f
  | .ok w1 => check_multi_info w1

/-- Lines 270-292 of `MultiInfo::asio_socket_callback`: the checks of the running count and of
`finished_`, and the re-arming. -/
def asio_socket_callback_finish (ec : Bool) (easy : Nat) (s : Int) (what : Int) (session : Nat)
    (w : World) : Except Fault World :=
  let what1 := if ec then CURL_CSELECT_ERR else what
  if w.still_running_ ≤ 0 then
    .ok (timer_cancel w)
  else
    match w.deref session with
    | .error f => .error f
    | .ok sess =>
      if sess.finished_ then
        .ok (delete_session w session sess)
      else
        let w1 :=
          if what1 = CURL_POLL_IN ∧ Int.land sess.newest_event_ CURL_POLL_IN ≠ 0 then
            socket_async_wait w session sess
              { kind := .wait_read, easy := easy, s := s, what := CURL_POLL_IN,
                session := session }
          else w
        match w1.deref session with
        | .error f => .error f
        | .ok sess1 =>
          if what1 = CURL_POLL_OUT ∧ Int.land sess1.newest_event_ CURL_POLL_OUT ≠ 0 then
            .ok (socket_async_wait w1 session sess1
              { kind := .wait_write, easy := easy, s := s, what := CURL_POLL_OUT,
                session := session })
          else .ok w1

/-- The callback `MultiInfo::asio_socket_callback` (lines 248-293). -/
def asio_socket_callback (ec : Bool) (easy : Nat) (s : Int) (what : Int) (session : Nat)
    (d : Drive) (w : World) : Except Fault World :=
  match asio_socket_callback_drive ec s what d w with
  | .error f => .error f
  | .ok w1 => asio_socket_callback_finish ec easy s what session w1

/-! ## The reactor loop -/

/-- Invoke a handler; `d` is what the engine does if the handler drives it. -/
def Handler.invoke (h : Handler) (d : Drive) (w : World) : Except Fault World :=
  match h with
  | .timer error => asio_timer_callback error d w
  | .socket ec easy s what session => asio_socket_callback ec easy s what session d w

/-- One turn of `ioc_.run()`: the armed timer wait expires, or the oldest queued handler runs,
or the wait number `idx` armed on the socket of the Session at `session` becomes ready. A fired
wait is one-shot: it is removed before its handler runs. -/
inductive Event where
  | timerExpire (d : Drive)
  | runReady (d : Drive)
  | socketReady (session : Nat) (idx : Nat) (d : Drive)
deriving DecidableEq

/-- Execute one turn of the loop; a turn that is not enabled leaves the state as it is. -/
def step (w : World) (e : Event) : Except Fault World :=
  match e with
  | .timerExpire d =>
    match w.timer_.waits with
    | [] => .ok w
    | _ :: rest => asio_timer_callback false d { w with timer_ := SteadyTimer.mk rest }
  | .runReady d =>
    match w.ready with
    | [] => .ok w
    | h :: rest => h.invoke d { w with ready := rest }
  | .socketReady session idx d =>
    match w.heap[session]? with
    | none => .ok w
    | some slot =>
      if slot.freed then .ok w
      else
        match slot.obj.socket_.waits[idx]? with
        | none => .ok w
        | some x =>
          let sess := { slot.obj with
            socket_ := { slot.obj.socket_ with waits := slot.obj.socket_.waits.eraseIdx idx } }
          asio_socket_callback false x.easy x.s x.what x.session d (w.store session sess)

/-- Execute a sequence of turns. -/
def run : List Event → World → Except Fault World
  | [], w => .ok w
  | e :: es, w =>
    match step w e with
    | .error f => .error f
    | .ok w1 => run es w1

/-! ## Specification vocabulary -/

/-- The waits `socket_callback` arms for a want-set, in the order it arms them. -/
def wantedWaits (easy : Nat) (s : Int) (what : Int) (session : Nat) : List SocketWait :=
  (if Int.land what CURL_POLL_IN ≠ 0 then
      [{ kind := .wait_read, easy := easy, s := s, what := CURL_POLL_IN, session := session }]
    else []) ++
  (if Int.land what CURL_POLL_OUT ≠ 0 then
      [{ kind := .wait_write, easy := easy, s := s, what := CURL_POLL_OUT, session := session }]
    else [])

/-- The wait kind and the event value bound into its handler agree, as in every `async_wait`
of the program: `wait_read` with `CURL_POLL_IN`, `wait_write` with `CURL_POLL_OUT`. -/
def SocketWait.wellTagged (x : SocketWait) : Prop :=
  (x.kind = .wait_read ∧ x.what = CURL_POLL_IN) ∨ (x.kind = .wait_write ∧ x.what = CURL_POLL_OUT)

/-- A state predicate that every statement of the handlers preserves. -/
structure HandlerSafe (P : World → Prop) : Prop where
  sock : ∀ w easy s what w1, P w → socket_callback w easy s what = .ok w1 → P w1
  timer : ∀ w t, P w → P (timer_callback w t)
  write : ∀ w ptr size nmemb u r, P w → write_callback w ptr size nmemb u = .ok r → P r.1
  log : ∀ (w : World) s what (d : Drive), P w →
    P { w with
        still_running_ := d.running
        msgq := w.msgq ++ d.msgs
        engineLog := w.engineLog ++ [{ sockfd := s, ev_bitmask := what, drive := d }] }
  read : ∀ (w : World) m rest, P w → w.msgq = m :: rest → m.msg ≠ CURLMSG_DONE →
    P { w with msgq := rest }
  sink : ∀ (w : World) m rest p s, P w → w.msgq = m :: rest → m.msg = CURLMSG_DONE →
    curl_easy_getinfo w m.easy_handle = some (some p) → w.deref p = .ok s →
    P (World.store
        { w with msgq := rest, sinkLog := w.sinkLog ++ [SinkCall.mk p s.url_ s.html_] }
        p { s with finished_ := true })
  cancel : ∀ w, P w → P (timer_cancel w)
  delete : ∀ w session sess, P w → w.deref session = .ok sess → sess.finished_ = true →
    P (delete_session w session sess)
  arm : ∀ w session sess x, P w → w.deref session = .ok sess → sess.finished_ = false →
    x.session = session → x.wellTagged → Int.land sess.newest_event_ x.what ≠ 0 →
    P (socket_async_wait w session sess x)

/-- A state predicate that the handlers and the reactor's bookkeeping preserve. -/
structure LoopSafe (P : World → Prop) extends HandlerSafe P : Prop where
  timerPop : ∀ (w : World) x rest, P w → w.timer_.waits = x :: rest →
    P { w with timer_ := SteadyTimer.mk rest }
  readyPop : ∀ (w : World) h rest, P w → w.ready = h :: rest → P { w with ready := rest }
  waitErase : ∀ (w : World) session sess idx x, P w → w.deref session = .ok sess →
    sess.socket_.waits[idx]? = some x →
    P (w.store session
        { sess with socket_ := { sess.socket_ with waits := sess.socket_.waits.eraseIdx idx } })

/-- Every heap cell satisfies `Q`. -/
def World.all (w : World) (Q : Nat → Slot → Prop) : Prop :=
  ∀ q slot, w.heap[q]? = some slot → Q q slot

/-- At most one timer wait is armed. -/
def TimerBound (w : World) : Prop := w.timer_.waits.length ≤ 1

/-- A live Session whose watch is closed wants neither kind. -/
def ClosedQuiet (w : World) : Prop :=
  w.all fun _ slot => slot.freed = false → slot.obj.socket_.is_open = false →
    Int.land slot.obj.newest_event_ CURL_POLL_IN = 0 ∧
    Int.land slot.obj.newest_event_ CURL_POLL_OUT = 0

/-- Every wait armed on a Session's socket carries that Session and a matching tag. -/
def WaitsOwned (w : World) : Prop :=
  w.all fun q slot => ∀ x ∈ slot.obj.socket_.waits, x.session = q ∧ x.wellTagged

/-- Every deleted Session had `finished_` set. -/
def FreedFinished (w : World) : Prop :=
  w.all fun _ slot => slot.freed = true → slot.obj.finished_ = true

/-- The state after the engine has stored its running count, queued its messages, and the
drive has been recorded. -/
def World.logged (w : World) (s what : Int) (d : Drive) : World :=
  { w with
    still_running_ := d.running
    msgq := w.msgq ++ d.msgs
    engineLog := w.engineLog ++ [{ sockfd := s, ev_bitmask := what, drive := d }] }

/-- A state predicate kept by the statements of Drain Completions. -/
structure DrainSafe (P : World → Prop) : Prop where
  read : ∀ (w : World) m rest, P w → w.msgq = m :: rest → m.msg ≠ CURLMSG_DONE →
    P { w with msgq := rest }
  sink : ∀ (w : World) m rest p s, P w → w.msgq = m :: rest → m.msg = CURLMSG_DONE →
    curl_easy_getinfo w m.easy_handle = some (some p) → w.deref p = .ok s →
    P (World.store
        { w with msgq := rest, sinkLog := w.sinkLog ++ [SinkCall.mk p s.url_ s.html_] }
        p { s with finished_ := true })

/-- A state predicate kept by what a handler does after Drain Completions. -/
structure FinishSafe (P : World → Prop) : Prop where
  cancel : ∀ w, P w → P (timer_cancel w)
  delete : ∀ w session sess, P w → w.deref session = .ok sess → sess.finished_ = true →
    P (delete_session w session sess)
  arm : ∀ w session sess x, P w → w.deref session = .ok sess → sess.finished_ = false →
    x.session = session → x.wellTagged → Int.land sess.newest_event_ x.what ≠ 0 →
    P (socket_async_wait w session sess x)

/-- The part of a Session the sink depends on. -/
structure SessionData where
  url : String
  html : List UInt8
  finished : Bool

/-- The data of a Session. -/
def Session.data (s : Session) : SessionData :=
  { url := s.url_, html := s.html_, finished := s.finished_ }

/-- The part of the state that delivery depends on: the engine's private pointers and
completion queue, the two histories, and the data of every Session ever allocated (a deleted
Session keeps the data it had). -/
structure View where
  priv : List (Nat × Option Nat)
  msgq : List CURLMsg
  sinkLog : List SinkCall
  engineLog : List DriveRecord
  data : Nat → Option SessionData

/-- The data held at each heap index. -/
def heapData (l : List Slot) (q : Nat) : Option SessionData :=
  (l[q]?).map fun slot => slot.obj.data

/-- The view of a state. -/
def World.view (w : World) : View :=
  { priv := w.priv
    msgq := w.msgq
    sinkLog := w.sinkLog
    engineLog := w.engineLog
    data := heapData w.heap }

/-- The number of sink invocations of the Session at `p`. -/
def sinkCount (p : Nat) (log : List SinkCall) : Nat :=
  log.countP fun c => c.session == p

/-- The number of messages that report the transfer of the Session at `p` done. -/
def doneCount (priv : List (Nat × Option Nat)) (p : Nat) (ms : List CURLMsg) : Nat :=
  ms.countP fun m => m.msg == CURLMSG_DONE && priv.lookup m.easy_handle == some (some p)

/-- The messages the engine has queued during the recorded drives, in order. -/
def loggedMsgs : List DriveRecord → List CURLMsg
  | [] => []
  | r :: rs => r.drive.msgs ++ loggedMsgs rs

/-- Between two handler runs the completion queue is empty, every Session's sink has been
invoked as many times as the engine has reported its transfer done, and every Session whose
sink has been invoked has `finished_` set. -/
def Delivered (pr : List (Nat × Option Nat)) (v : View) : Prop :=
  v.priv = pr ∧ v.msgq = [] ∧
  (∀ p, sinkCount p v.sinkLog = doneCount pr p (loggedMsgs v.engineLog)) ∧
  (∀ c ∈ v.sinkLog, ∃ sd, v.data c.session = some sd ∧ sd.finished = true)

/-- During Drain Completions: the sink invocations and the unread messages together account
for the reported completions. -/
def Delivering (pr : List (Nat × Option Nat)) (v : View) : Prop :=
  v.priv = pr ∧
  (∀ p, sinkCount p v.sinkLog + doneCount pr p v.msgq =
    doneCount pr p (loggedMsgs v.engineLog)) ∧
  (∀ c ∈ v.sinkLog, ∃ sd, v.data c.session = some sd ∧ sd.finished = true)

/-- The engine's contract for a write callback: the memory at `ptr` holds exactly
`size * nmemb` bytes, a count that fits `size_t`. -/
def EngineCall.wellFormed : EngineCall → Prop
  | .write _ ptr size nmemb => ptr.length = size * nmemb ∧ size * nmemb < 2 ^ SIZE_WIDTH
  | _ => True

/-- Every callback of the drive meets the engine's contract. -/
def Drive.wellFormed (d : Drive) : Prop := ∀ c ∈ d.calls, c.wellFormed

/-- The drive the engine performs if the handler of the turn drives it. -/
def Event.drive : Event → Drive
  | .timerExpire d => d
  | .runReady d => d
  | .socketReady _ _ d => d

/-- The chunks the callbacks of one drive deliver to the Session at `q`, concatenated in
order. -/
def writesTo (q : Nat) : List EngineCall → List UInt8
  | [] => []
  | .write u ptr _ _ :: cs => (if u = q then ptr else []) ++ writesTo q cs
  | _ :: cs => writesTo q cs

/-- The chunks the recorded drives have delivered to the Session at `q`, concatenated in
order. -/
def delivered (q : Nat) : List DriveRecord → List UInt8
  | [] => []
  | r :: rs => writesTo q r.drive.calls ++ delivered q rs

/-- The request url of the Session at `q`. -/
def World.url (w : World) (q : Nat) : String :=
  match w.heap[q]? with
  | some slot => slot.obj.url_
  | none => ""

/-- Every Session holds in `html_` the chunks `H` and has the url `u0`. -/
def Holding (u0 : Nat → String) (H : Nat → List UInt8) (v : View) : Prop :=
  ∀ q sd, v.data q = some sd → sd.html = H q ∧ sd.url = u0 q

/-- Every Session holds in `html_` the chunks delivered to it so far. -/
def Accumulated (u0 : Nat → String) (v : View) : Prop :=
  Holding u0 (fun q => delivered q v.engineLog) v

/-- The state in which `main` enters `Run()`: every Session is as its constructor left it,
nothing has been delivered or recorded, and at most one timer wait is armed. -/
def Initial (w : World) : Prop :=
  (∀ slot ∈ w.heap, slot.freed = false ∧ slot.obj.html_ = [] ∧ slot.obj.finished_ = false ∧
    slot.obj.newest_event_ = 0 ∧ slot.obj.socket_.is_open = false ∧
    slot.obj.socket_.waits = []) ∧
  w.msgq = [] ∧ w.sinkLog = [] ∧ w.engineLog = [] ∧ w.timer_.waits.length ≤ 1

/-- The scheduled wake-ups that are pending: the armed timer waits and the posted wake-ups
that will run `asio_timer_callback` with no error. -/
def pendingWakeups (w : World) : Nat :=
  w.timer_.waits.length + w.ready.count (Handler.timer false)

/-- The event value bound to a wait kind. -/
def WaitType.bit : WaitType → Int
  | .wait_read => CURL_POLL_IN
  | .wait_write => CURL_POLL_OUT

/-- The kind is in the Session's `newest_event_`. -/
def Session.wants (s : Session) (k : WaitType) : Prop :=
  Int.land s.newest_event_ k.bit ≠ 0

instance Session.decWants (s : Session) (k : WaitType) : Decidable (s.wants k) := by
  unfold Session.wants
  infer_instance

/-- A wait of the kind is armed on the Session's socket. -/
def Session.armed (s : Session) (k : WaitType) : Prop :=
  ∃ x ∈ s.socket_.waits, x.kind = k

/-- For the pairs of a Session and a kind selected by `S`: a live Session that wants the kind
has a wait of that kind armed. -/
def FidelityOn (S : Nat → WaitType → Prop) (w : World) : Prop :=
  w.all fun q slot => slot.freed = false → ∀ k, S q k → slot.obj.wants k → slot.obj.armed k

/-- Every live Session has a wait armed for every kind it wants. -/
def Fidelity (w : World) : Prop := FidelityOn (fun _ _ => True) w

/-- Whether the Session at `p` has `finished_` set in the outcome of a handler. -/
def finishedAt (r : Except Fault World) (p : Nat) : Option Bool :=
  match r with
  | .ok w => (w.heap[p]?).map fun slot => slot.obj.finished_
  | .error _ => none

/-- Whether the Session at `p` is deleted in the outcome of a handler. -/
def freedAt (r : Except Fault World) (p : Nat) : Option Bool :=
  match r with
  | .ok w => (w.heap[p]?).map fun slot => slot.freed
  | .error _ => none

/-- The kinds of the waits armed on the socket of the Session at `p`, and its
`newest_event_`, in the outcome of a handler. -/
def watchAt (r : Except Fault World) (p : Nat) : Option (List WaitType × Int) :=
  match r with
  | .ok w => (w.heap[p]?).map fun slot =>
      (slot.obj.socket_.waits.map fun x => x.kind, slot.obj.newest_event_)
  | .error _ => none

/-- The state of an outcome, or `w` when the outcome is a fault. -/
def stateOr (r : Except Fault World) (w : World) : World :=
  match r with
  | .ok w1 => w1
  | .error _ => w

/-! ### A concrete execution -/

/-- A state with no Session and nothing scheduled. -/
def exEmpty : World :=
  { heap := [], priv := [], msgq := [], still_running_ := 0, timer_ := { waits := [] },
    ready := [], sinkLog := [], engineLog := [] }

/-- Two registered Sessions: A at pointer 0 with easy handle 101, B at pointer 1 with easy
handle 102; the engine has asked for an immediate wake-up, which is posted. -/
def exStart : World :=
  { heap := [{ obj := { Session.create "A" with easy_ := 101 }, freed := false },
             { obj := { Session.create "B" with easy_ := 102 }, freed := false }]
    priv := [(101, some 0), (102, some 1)]
    msgq := []
    still_running_ := 0
    timer_ := { waits := [] }
    ready := [Handler.timer false]
    sinkLog := []
    engineLog := [] }

/-- First turn: the posted wake-up runs; the engine opens socket 7 for A and wants it readable
and writable, and opens socket 8 for B and wants it readable; two transfers are running. -/
def exTurn1 : Event :=
  .runReady { calls := [.socket 101 7 3, .socket 102 8 1], running := 2, msgs := [] }

/-- Second turn: A's read wait fires; the engine delivers two bytes to A, asks to remove
socket 7 and reports A done; B is still running. -/
def exTurn2 : Event :=
  .socketReady 0 0
    { calls := [.write 0 [104, 105] 1 2, .socket 101 7 4], running := 1,
      msgs := [{ msg := 1, easy_handle := 101 }] }

/-- Third turn: the handler of A's cancelled write wait runs. -/
def exTurn3 : Event :=
  .runReady { calls := [], running := 1, msgs := [] }

/-- The state after the first turn. -/
def exArmed : World := stateOr (run [exTurn1] exStart) exStart

/-- The state after the second turn. -/
def exDone : World := stateOr (run [exTurn1, exTurn2] exStart) exStart

/-- A drive in which the engine reports A done and no transfer running any more. -/
def exLastDrive : Drive :=
  { calls := [], running := 0, msgs := [{ msg := 1, easy_handle := 101 }] }

/-- Session A after the first turn: socket 7 is assigned, a read wait and a write wait are
armed, and both kinds are wanted. -/
def exSessionA : Session :=
  { easy_ := 101
    url_ := "A"
    html_ := []
    socket_ :=
      { is_open := true, native_handle := 7,
        waits := [{ kind := .wait_read, easy := 101, s := 7, what := 1, session := 0 },
                  { kind := .wait_write, easy := 101, s := 7, what := 2, session := 0 }] }
    newest_event_ := 3
    finished_ := false }

/-- A drive in which the engine does nothing and two transfers stay running. -/
def exQuietDrive : Drive := { calls := [], running := 2, msgs := [] }

/-- The state after A's read wait has fired in `exArmed` and the engine has been driven with
`exQuietDrive`. -/
def exFired : World :=
  stateOr
    (asio_socket_callback_drive false 7 1 exQuietDrive
      (exArmed.store 0
        { exSessionA with
          socket_ := { exSessionA.socket_ with waits := exSessionA.socket_.waits.eraseIdx 0 } }))
    exStart

/-- Session A in `exFired`: only the write wait is armed. -/
def exSessionFired : Session :=
  { exSessionA with
    socket_ := { exSessionA.socket_ with waits := exSessionA.socket_.waits.eraseIdx 0 } }

/-- A turn in which the engine declares readable and then writable for A's socket. -/
def exShrink : Event :=
  .runReady { calls := [.socket 101 7 1, .socket 101 7 2], running := 2, msgs := [] }

/-! ## Heap lemmas -/

theorem deref_eq_ok {w : World} {p : Nat} {sess : Session} :
    w.deref p = .ok sess ↔ w.heap[p]? = some ⟨sess, false⟩ := by
  unfold World.deref
  cases h : w.heap[p]? with
  | none => simp
  | some slot =>
    rcases slot with ⟨o, f⟩
    cases f <;> simp

theorem deref_lt {w : World} {p : Nat} {sess : Session} (h : w.deref p = .ok sess) :
    p < w.heap.length := by
  rw [deref_eq_ok] at h
  by_contra hc
  rw [List.getElem?_eq_none (by omega)] at h
  cases h

theorem store_heap_get (w : World) (p q : Nat) (sess : Session) :
    (w.store p sess).heap[q]? =
      if p = q then (if p < w.heap.length then some ⟨sess, false⟩ else none) else w.heap[q]? := by
  simp [World.store, List.getElem?_set]

theorem deref_store_same {w : World} {p : Nat} {sess sess1 : Session}
    (h : w.deref p = .ok sess) : (w.store p sess1).deref p = .ok sess1 := by
  have hlt := deref_lt h
  rw [deref_eq_ok, store_heap_get]
  simp [hlt]

theorem deref_store_other {w : World} {p q : Nat} (sess1 : Session) (h : p ≠ q) :
    (w.store p sess1).deref q = w.deref q := by
  unfold World.deref
  rw [store_heap_get]
  simp [h]

theorem store_store (w : World) (p : Nat) (a b : Session) :
    (w.store p a).store p b = w.store p b := by
  simp [World.store, List.set_set]

theorem store_self {w : World} {p : Nat} {sess : Session} (h : w.deref p = .ok sess) :
    w.store p sess = w := by
  rw [deref_eq_ok] at h
  have hlt : p < w.heap.length := by
    by_contra hc
    rw [List.getElem?_eq_none (by omega)] at h
    cases h
  have : w.heap.set p ⟨sess, false⟩ = w.heap := by
    apply List.ext_getElem? 
    intro i
    rw [List.getElem?_set]
    by_cases hi : p = i
    · subst hi; simp [hlt, h]
    · simp [hi]
  simp [World.store, this]

/-! ## The waits a notification arms -/

theorem socket_callback_remove {w : World} {easy : Nat} {s : Int} {session : Nat} {sess : Session}
    (hp : curl_easy_getinfo w easy = some (some session)) (hs : w.deref session = .ok sess) :
    socket_callback w easy s CURL_POLL_REMOVE =
      .ok { w.store session
              { sess with newest_event_ := CURL_POLL_REMOVE, socket_ := sess.socket_.close } with
            ready := w.ready ++ aborted sess.socket_.waits } := by
  unfold socket_callback
  simp [hp, hs]

theorem socket_callback_arm {w : World} {easy : Nat} {s what : Int} {session : Nat}
    {sess : Session} (hp : curl_easy_getinfo w easy = some (some session))
    (hs : w.deref session = .ok sess) (hw : what ≠ CURL_POLL_REMOVE)
    (hh : sess.socket_.is_open = true → sess.socket_.native_handle = s) :
    socket_callback w easy s what =
      .ok (w.store session
        { sess with
          newest_event_ := what
          socket_ :=
            { is_open := true, native_handle := s,
              waits := sess.socket_.waits ++ wantedWaits easy s what session } }) := by
  rcases sess with ⟨e, u, h, ⟨o, nh, ws⟩, n, f⟩
  unfold socket_callback
  simp only [hp, hs, hw, if_false]
  cases o
  · by_cases h1 : Int.land what CURL_POLL_IN ≠ 0 <;>
      by_cases h2 : Int.land what CURL_POLL_OUT ≠ 0 <;>
      simp [TcpSocket.assign, wantedWaits, socket_async_wait, h1, h2, deref_store_same hs,
        store_store]
  · have hnh : nh = s := hh rfl
    subst hnh
    by_cases h1 : Int.land what CURL_POLL_IN ≠ 0 <;>
      by_cases h2 : Int.land what CURL_POLL_OUT ≠ 0 <;>
      simp [TcpSocket.assign, wantedWaits, socket_async_wait, h1, h2, deref_store_same hs,
        store_store]

theorem socket_callback_mismatch {w : World} {easy : Nat} {s what : Int} {session : Nat}
    {sess : Session} (hp : curl_easy_getinfo w easy = some (some session))
    (hs : w.deref session = .ok sess) (hw : what ≠ CURL_POLL_REMOVE)
    (ho : sess.socket_.is_open = true) (hh : sess.socket_.native_handle ≠ s) :
    socket_callback w easy s what =
      .error (.assertionFailed (w.store session { sess with newest_event_ := what })) := by
  unfold socket_callback
  simp [hp, hs, hw, ho, hh]

/-- What a returning `socket_callback` has done: nothing, or an update of the `newest_event_`
and `socket_` of one live Session together with the queueing of cancelled handlers. -/
theorem socket_callback_ok_inv {w w1 : World} {easy : Nat} {s what : Int}
    (h : socket_callback w easy s what = .ok w1) :
    w1 = w ∨ ∃ p sess sock extra, curl_easy_getinfo w easy = some (some p) ∧
      w.deref p = .ok sess ∧
      w1 = { w.store p { sess with newest_event_ := what, socket_ := sock } with
             ready := w.ready ++ extra } ∧
      ((what = CURL_POLL_REMOVE ∧ sock = sess.socket_.close ∧
          extra = aborted sess.socket_.waits) ∨
        (what ≠ CURL_POLL_REMOVE ∧ extra = [] ∧
          sock = { is_open := true, native_handle := s,
                   waits := sess.socket_.waits ++ wantedWaits easy s what p })) := by
  cases hp : curl_easy_getinfo w easy with
  | none =>
    left
    unfold socket_callback at h
    simp [hp] at h
    exact h.symm
  | some o =>
    cases o with
    | none =>
      unfold socket_callback at h
      simp [hp] at h
    | some p =>
      cases hs : w.deref p with
      | error f =>
        unfold socket_callback at h
        simp [hp, hs] at h
      | ok sess =>
        right
        refine ⟨p, sess, ?_⟩
        by_cases hw : what = CURL_POLL_REMOVE
        · subst hw
          rw [socket_callback_remove hp hs] at h
          refine ⟨sess.socket_.close, aborted sess.socket_.waits, rfl, hs, ?_, Or.inl ⟨rfl, rfl, rfl⟩⟩
          injection h with h
          exact h.symm
        · by_cases hh : sess.socket_.is_open = true → sess.socket_.native_handle = s
          · rw [socket_callback_arm hp hs hw hh] at h
            refine ⟨_, [], rfl, hs, ?_, Or.inr ⟨hw, rfl, rfl⟩⟩
            injection h with h
            rw [← h]
            simp [World.store]
          · push_neg at hh
            rw [socket_callback_mismatch hp hs hw hh.1 hh.2] at h
            cases h

/-! ## Normal forms of the handlers -/

theorem write_callback_ok {w : World} {ptr : List UInt8} {size nmemb userdata : Nat}
    {sess : Session} (hs : w.deref userdata = .ok sess) :
    write_callback w ptr size nmemb userdata =
      .ok (w.store userdata
            { sess with html_ := sess.html_ ++ ptr.take ((size * nmemb) % 2 ^ SIZE_WIDTH) },
          (size * nmemb) % 2 ^ SIZE_WIDTH) := by
  unfold write_callback
  simp [hs]

theorem write_callback_ok_inv {w : World} {ptr : List UInt8} {size nmemb userdata : Nat}
    {r : World × Nat} (h : write_callback w ptr size nmemb userdata = .ok r) :
    ∃ sess, w.deref userdata = .ok sess ∧
      r = (w.store userdata
            { sess with html_ := sess.html_ ++ ptr.take ((size * nmemb) % 2 ^ SIZE_WIDTH) },
          (size * nmemb) % 2 ^ SIZE_WIDTH) := by
  cases hs : w.deref userdata with
  | error f =>
    unfold write_callback at h
    simp [hs] at h
  | ok sess =>
    rw [write_callback_ok hs] at h
    injection h with h
    exact ⟨sess, rfl, h.symm⟩

/-- With no transfer running the handler only cancels the timer. -/
theorem finish_idle {ec : Bool} {easy : Nat} {s what : Int} {session : Nat} {w : World}
    (h : w.still_running_ ≤ 0) :
    asio_socket_callback_finish ec easy s what session w = .ok (timer_cancel w) := by
  unfold asio_socket_callback_finish
  simp [h]

theorem finish_delete {ec : Bool} {easy : Nat} {s what : Int} {session : Nat} {w : World}
    {sess : Session} (h : 0 < w.still_running_) (hs : w.deref session = .ok sess)
    (hf : sess.finished_ = true) :
    asio_socket_callback_finish ec easy s what session w = .ok (delete_session w session sess) := by
  unfold asio_socket_callback_finish
  have : ¬ w.still_running_ ≤ 0 := by omega
  simp [this, hs, hf]

theorem deref_socket_async_wait {w : World} {p : Nat} {sess : Session}
    (hs : w.deref p = .ok sess) (x : SocketWait) :
    ∃ sess1, (socket_async_wait w p sess x).deref p = .ok sess1 := by
  unfold socket_async_wait
  split
  · exact ⟨_, deref_store_same hs⟩
  · exact ⟨sess, hs⟩

theorem finish_rearm {ec : Bool} {easy : Nat} {s what : Int} {session : Nat} {w : World}
    {sess : Session} (h : 0 < w.still_running_) (hs : w.deref session = .ok sess)
    (hf : sess.finished_ = false) :
    asio_socket_callback_finish ec easy s what session w =
      .ok (if ec = false ∧ what = CURL_POLL_IN ∧ Int.land sess.newest_event_ CURL_POLL_IN ≠ 0 then
            socket_async_wait w session sess
              { kind := .wait_read, easy := easy, s := s, what := CURL_POLL_IN,
                session := session }
          else if ec = false ∧ what = CURL_POLL_OUT ∧
              Int.land sess.newest_event_ CURL_POLL_OUT ≠ 0 then
            socket_async_wait w session sess
              { kind := .wait_write, easy := easy, s := s, what := CURL_POLL_OUT,
                session := session }
          else w) := by
  unfold asio_socket_callback_finish
  have h0 : ¬ w.still_running_ ≤ 0 := by omega
  have e1 : CURL_CSELECT_ERR ≠ CURL_POLL_IN := by decide
  have e2 : CURL_CSELECT_ERR ≠ CURL_POLL_OUT := by decide
  have e3 : CURL_POLL_IN ≠ CURL_POLL_OUT := by decide
  simp only [h0, hs, hf, if_false]
  cases ec
  · by_cases h1 : what = CURL_POLL_IN
    · subst h1
      by_cases h3 : Int.land sess.newest_event_ CURL_POLL_IN ≠ 0
      · obtain ⟨sess1, hs1⟩ := deref_socket_async_wait hs
          { kind := .wait_read, easy := easy, s := s, what := CURL_POLL_IN, session := session }
        simp [h3, hs1, e3]
      · simp [h3, hs, e3]
    · by_cases h2 : what = CURL_POLL_OUT
      · subst h2
        by_cases h4 : Int.land sess.newest_event_ CURL_POLL_OUT ≠ 0
        · simp [h1, h4, hs]
        · simp [h1, h4, hs]
      · simp [h1, h2, hs]
  · simp [e1, e2, hs]

theorem engineCalls_preserves {P : World → Prop}
    (hsock : ∀ w easy s what w1, P w → socket_callback w easy s what = .ok w1 → P w1)
    (htimer : ∀ w t, P w → P (timer_callback w t))
    (hwrite : ∀ w ptr size nmemb u r, P w → write_callback w ptr size nmemb u = .ok r → P r.1) :
    ∀ (cs : List EngineCall) (w w1 : World), P w → engineCalls cs w = .ok w1 → P w1 := by
  intro cs
  induction cs with
  | nil =>
    intro w w1 hP h
    simp [engineCalls] at h
    exact h ▸ hP
  | cons c cs ih =>
    intro w w1 hP h
    simp only [engineCalls] at h
    cases hc : engineCall w c with
    | error f => simp [hc] at h
    | ok w2 =>
      simp only [hc] at h
      refine ih w2 w1 ?_ h
      cases c with
      | socket easy s what => exact hsock _ _ _ _ _ hP hc
      | timer t =>
        simp only [engineCall, Except.ok.injEq] at hc
        exact hc ▸ htimer w t hP
      | write u ptr size nmemb =>
        simp only [engineCall] at hc
        cases hr : write_callback w ptr size nmemb u with
        | error f => simp [hr] at hc
        | ok r =>
          simp only [hr, Except.ok.injEq] at hc
          exact hc ▸ hwrite _ _ _ _ _ _ hP hr

theorem socket_action_ok_inv {w w2 : World} {s what : Int} {d : Drive}
    (h : curl_multi_socket_action w s what d = .ok w2) :
    ∃ w1, engineCalls d.calls w = .ok w1 ∧
      w2 = { w1 with
             still_running_ := d.running
             msgq := w1.msgq ++ d.msgs
             engineLog := w1.engineLog ++ [{ sockfd := s, ev_bitmask := what, drive := d }] } := by
  unfold curl_multi_socket_action at h
  cases hc : engineCalls d.calls w with
  | error f => simp [hc] at h
  | ok w1 =>
    simp only [hc, Except.ok.injEq] at h
    exact ⟨w1, rfl, h.symm⟩

theorem check_loop_preserves {P : World → Prop}
    (hread : ∀ (w : World) m rest, P w → w.msgq = m :: rest → m.msg ≠ CURLMSG_DONE →
      P { w with msgq := rest })
    (hsink : ∀ (w : World) m rest p s, P w → w.msgq = m :: rest → m.msg = CURLMSG_DONE →
      curl_easy_getinfo w m.easy_handle = some (some p) → w.deref p = .ok s →
      P (World.store
          { w with msgq := rest, sinkLog := w.sinkLog ++ [SinkCall.mk p s.url_ s.html_] }
          p { s with finished_ := true })) :
    ∀ (ms : List CURLMsg) (w w1 : World), w.msgq = ms → P w →
      check_multi_info_loop ms w = .ok w1 → P w1 ∧ w1.msgq = [] := by
  intro ms
  induction ms with
  | nil =>
    intro w w1 hq hP h
    simp only [check_multi_info_loop, Except.ok.injEq] at h
    subst h
    exact ⟨hP, hq⟩
  | cons m rest ih =>
    intro w w1 hq hP h
    simp only [check_multi_info_loop] at h
    by_cases hm : m.msg = CURLMSG_DONE
    · simp only [hm, if_true] at h
      have hg : curl_easy_getinfo { w with msgq := rest } m.easy_handle =
          curl_easy_getinfo w m.easy_handle := rfl
      have hd : ∀ p, World.deref { w with msgq := rest } p = w.deref p := fun _ => rfl
      rw [hg] at h
      cases hp : curl_easy_getinfo w m.easy_handle with
      | none => simp [hp] at h
      | some o =>
        cases o with
        | none => simp [hp] at h
        | some p =>
          simp only [hp, hd] at h
          cases hs : w.deref p with
          | error f => simp [hs] at h
          | ok s =>
            simp only [hs] at h
            exact ih _ w1 rfl (hsink w m rest p s hP hq hm hp hs) h
    · simp only [hm, if_false] at h
      exact ih _ w1 rfl (hread w m rest hP hq hm) h

theorem finish_ok_inv {ec : Bool} {easy : Nat} {s what : Int} {session : Nat} {w w1 : World}
    (h : asio_socket_callback_finish ec easy s what session w = .ok w1) :
    (w.still_running_ ≤ 0 ∧ w1 = timer_cancel w) ∨
    (0 < w.still_running_ ∧ ∃ sess, w.deref session = .ok sess ∧
      ((sess.finished_ = true ∧ w1 = delete_session w session sess) ∨
       (sess.finished_ = false ∧
        (w1 = w ∨ ∃ x, x.session = session ∧ x.wellTagged ∧ ec = false ∧ x.what = what ∧
          x.easy = easy ∧ x.s = s ∧
          Int.land sess.newest_event_ x.what ≠ 0 ∧ w1 = socket_async_wait w session sess x)))) := by
  by_cases h0 : w.still_running_ ≤ 0
  · left
    rw [finish_idle h0] at h
    injection h with h
    exact ⟨h0, h.symm⟩
  · right
    have h1 : 0 < w.still_running_ := by omega
    refine ⟨h1, ?_⟩
    cases hs : w.deref session with
    | error f =>
      unfold asio_socket_callback_finish at h
      simp [h0, hs] at h
    | ok sess =>
      refine ⟨sess, rfl, ?_⟩
      cases hf : sess.finished_
      · right
        refine ⟨rfl, ?_⟩
        rw [finish_rearm h1 hs hf] at h
        injection h with h
        subst h
        split
        · rename_i hc
          right
          exact ⟨_, rfl, Or.inl ⟨rfl, rfl⟩, hc.1, hc.2.1.symm, rfl, rfl, hc.2.2, rfl⟩
        · split
          · rename_i hc
            right
            exact ⟨_, rfl, Or.inr ⟨rfl, rfl⟩, hc.1, hc.2.1.symm, rfl, rfl, hc.2.2, rfl⟩
          · left; rfl
      · left
        refine ⟨rfl, ?_⟩
        rw [finish_delete h1 hs hf] at h
        injection h with h
        exact h.symm

theorem finish_preserves {P : World → Prop} (hP : HandlerSafe P) {ec : Bool} {easy : Nat}
    {s what : Int} {session : Nat} {w w1 : World} (h0 : P w)
    (h : asio_socket_callback_finish ec easy s what session w = .ok w1) : P w1 := by
  rcases finish_ok_inv h with ⟨_, rfl⟩ | ⟨_, sess, hs, hc⟩
  · exact hP.cancel w h0
  · rcases hc with ⟨hf, rfl⟩ | ⟨hf, rfl | ⟨x, hx, hx2, _, _, _, _, hx3, rfl⟩⟩
    · exact hP.delete w session sess h0 hs hf
    · exact h0
    · exact hP.arm w session sess x h0 hs hf hx hx2 hx3

theorem drive_preserves {P : World → Prop} (hP : HandlerSafe P) {w w2 : World} {s what : Int}
    {d : Drive} (h0 : P w) (h : curl_multi_socket_action w s what d = .ok w2) : P w2 := by
  obtain ⟨w1, hc, rfl⟩ := socket_action_ok_inv h
  exact hP.log w1 s what d (engineCalls_preserves hP.sock hP.timer hP.write _ _ _ h0 hc)

theorem check_preserves {P : World → Prop} (hP : HandlerSafe P) {w w1 : World} (h0 : P w)
    (h : check_multi_info w = .ok w1) : P w1 ∧ w1.msgq = [] :=
  check_loop_preserves hP.read hP.sink _ _ _ rfl h0 h

theorem asio_timer_callback_preserves {P : World → Prop} (hP : HandlerSafe P) {error : Bool}
    {d : Drive} {w w1 : World} (h0 : P w) (h : asio_timer_callback error d w = .ok w1) :
    P w1 := by
  unfold asio_timer_callback at h
  cases error
  · simp only [Bool.false_eq_true, not_false_eq_true, if_true] at h
    cases h1 : curl_multi_socket_action w CURL_SOCKET_TIMEOUT 0 d with
    | error f => simp [h1] at h
    | ok w2 =>
      simp only [h1] at h
      cases h2 : check_multi_info w2 with
      | error f => simp [h2] at h
      | ok w3 =>
        simp only [h2] at h
        have h3 := (check_preserves hP (drive_preserves hP h0 h1) h2).1
        split at h
        · injection h with h
          exact h ▸ hP.cancel w3 h3
        · injection h with h
          exact h ▸ h3
  · simp at h
    exact h ▸ h0

theorem asio_socket_callback_ok_inv {ec : Bool} {easy : Nat} {s what : Int} {session : Nat}
    {d : Drive} {w w3 : World} (h : asio_socket_callback ec easy s what session d w = .ok w3) :
    ∃ w1 w2, curl_multi_socket_action w s (if ec then CURL_CSELECT_ERR else what) d = .ok w1 ∧
      check_multi_info w1 = .ok w2 ∧ asio_socket_callback_drive ec s what d w = .ok w2 ∧
      asio_socket_callback_finish ec easy s what session w2 = .ok w3 := by
  unfold asio_socket_callback at h
  cases h1 : asio_socket_callback_drive ec s what d w with
  | error f => simp [h1] at h
  | ok w2 =>
    simp only [h1] at h
    have h1c := h1
    unfold asio_socket_callback_drive at h1
    cases h2 : curl_multi_socket_action w s (if ec then CURL_CSELECT_ERR else what) d with
    | error f => simp [h2] at h1
    | ok w1 =>
      simp only [h2] at h1
      exact ⟨w1, w2, rfl, h1, rfl, h⟩

theorem asio_socket_callback_preserves {P : World → Prop} (hP : HandlerSafe P) {ec : Bool}
    {easy : Nat} {s what : Int} {session : Nat} {d : Drive} {w w3 : World} (h0 : P w)
    (h : asio_socket_callback ec easy s what session d w = .ok w3) : P w3 := by
  obtain ⟨w1, w2, h1, h2, _, h3⟩ := asio_socket_callback_ok_inv h
  exact finish_preserves hP (check_preserves hP (drive_preserves hP h0 h1) h2).1 h3

theorem invoke_preserves {P : World → Prop} (hP : HandlerSafe P) {hd : Handler} {d : Drive}
    {w w1 : World} (h0 : P w) (h : hd.invoke d w = .ok w1) : P w1 := by
  cases hd with
  | timer error => exact asio_timer_callback_preserves hP h0 h
  | socket ec easy s what session => exact asio_socket_callback_preserves hP h0 h

theorem step_preserves {P : World → Prop} (hP : LoopSafe P) {e : Event} {w w1 : World}
    (h0 : P w) (h : step w e = .ok w1) : P w1 := by
  cases e with
  | timerExpire d =>
    simp only [step] at h
    cases hw : w.timer_.waits with
    | nil =>
      simp only [hw, Except.ok.injEq] at h
      exact h ▸ h0
    | cons x rest =>
      simp only [hw] at h
      exact asio_timer_callback_preserves hP.toHandlerSafe (hP.timerPop w x rest h0 hw) h
  | runReady d =>
    simp only [step] at h
    cases hw : w.ready with
    | nil =>
      simp only [hw, Except.ok.injEq] at h
      exact h ▸ h0
    | cons x rest =>
      simp only [hw] at h
      exact invoke_preserves hP.toHandlerSafe (hP.readyPop w x rest h0 hw) h
  | socketReady session idx d =>
    simp only [step] at h
    cases hs : w.heap[session]? with
    | none =>
      simp only [hs, Except.ok.injEq] at h
      exact h ▸ h0
    | some slot =>
      rcases slot with ⟨obj, freed⟩
      simp only [hs] at h
      cases freed
      · simp only [Bool.false_eq_true, if_false] at h
        cases hx : obj.socket_.waits[idx]? with
        | none =>
          simp only [hx, Except.ok.injEq] at h
          exact h ▸ h0
        | some x =>
          simp only [hx] at h
          exact asio_socket_callback_preserves hP.toHandlerSafe
            (hP.waitErase w session obj idx x h0 (deref_eq_ok.mpr hs) hx) h
      · simp only [if_true, Except.ok.injEq] at h
        exact h ▸ h0

theorem run_preserves {P : World → Prop} (hP : LoopSafe P) :
    ∀ (evs : List Event) (w w1 : World), P w → run evs w = .ok w1 → P w1 := by
  intro evs
  induction evs with
  | nil =>
    intro w w1 h0 h
    simp only [run, Except.ok.injEq] at h
    exact h ▸ h0
  | cons e es ih =>
    intro w w1 h0 h
    simp only [run] at h
    cases hs : step w e with
    | error f => simp [hs] at h
    | ok w2 =>
      simp only [hs] at h
      exact ih w2 w1 (step_preserves hP h0 hs) h

theorem all_set {l : List Slot} {Q : Nat → Slot → Prop} {p : Nat} {new : Slot}
    (h : ∀ q slot, l[q]? = some slot → Q q slot) (hn : Q p new) :
    ∀ q slot, (l.set p new)[q]? = some slot → Q q slot := by
  intro q slot hq
  rw [List.getElem?_set] at hq
  by_cases hpq : p = q
  · subst hpq
    simp only [if_true] at hq
    split at hq
    · injection hq with hq
      exact hq ▸ hn
    · cases hq
  · simp only [hpq, if_false] at hq
    exact h q slot hq

theorem all_store {w : World} {Q : Nat → Slot → Prop} {p : Nat} {sess : Session}
    (h : w.all Q) (hn : Q p ⟨sess, false⟩) : (w.store p sess).all Q :=
  all_set h hn

theorem all_at {w : World} {Q : Nat → Slot → Prop} {p : Nat} {sess : Session}
    (h : w.all Q) (hs : w.deref p = .ok sess) : Q p ⟨sess, false⟩ :=
  h p _ (deref_eq_ok.mp hs)

/-- A predicate on the heap cells is kept by the handlers as soon as each statement keeps it
on the cell it rewrites. -/
theorem all_handlerSafe (Q : Nat → Slot → Prop)
    (hsock : ∀ p sess what sock (s : Int) (_ : Q p ⟨sess, false⟩),
      (what = CURL_POLL_REMOVE ∧ sock = sess.socket_.close ∨
        what ≠ CURL_POLL_REMOVE ∧ ∃ easy, sock =
          TcpSocket.mk true s (sess.socket_.waits ++ wantedWaits easy s what p)) →
      Q p ⟨{ sess with newest_event_ := what, socket_ := sock }, false⟩)
    (hwrite : ∀ p sess html, Q p ⟨sess, false⟩ → Q p ⟨{ sess with html_ := html }, false⟩)
    (hsink : ∀ p sess, Q p ⟨sess, false⟩ → Q p ⟨{ sess with finished_ := true }, false⟩)
    (hdelete : ∀ p sess, Q p ⟨sess, false⟩ → sess.finished_ = true →
      Q p ⟨{ sess with socket_ := sess.socket_.close }, true⟩)
    (harm : ∀ p sess x, Q p ⟨sess, false⟩ → x.session = p → x.wellTagged →
      sess.socket_.is_open = true → Int.land sess.newest_event_ x.what ≠ 0 →
      Q p ⟨{ sess with socket_ := { sess.socket_ with waits := sess.socket_.waits ++ [x] } },
        false⟩) :
    HandlerSafe fun w => w.all Q where
  sock := by
    intro w easy s what w1 h0 h
    rcases socket_callback_ok_inv h with rfl | ⟨p, sess, sock, extra, _, hs, rfl, hc⟩
    · exact h0
    · refine all_store h0 (hsock p sess what sock s (all_at h0 hs) ?_)
      rcases hc with ⟨a, b, _⟩ | ⟨a, _, b⟩
      · exact Or.inl ⟨a, b⟩
      · exact Or.inr ⟨a, easy, b⟩
  timer := by
    intro w t h0
    unfold timer_callback
    split
    · exact h0
    · split
      · exact h0
      · exact h0
  write := by
    intro w ptr size nmemb u r h0 h
    obtain ⟨sess, hs, rfl⟩ := write_callback_ok_inv h
    exact all_store h0 (hwrite u sess _ (all_at h0 hs))
  log := fun w s what d h0 => h0
  read := fun w m rest h0 _ _ => h0
  sink := by
    intro w m rest p s h0 _ _ _ hs
    exact all_store (w := { w with msgq := rest, sinkLog := _ }) h0 (hsink p s (all_at h0 hs))
  cancel := fun w h0 => h0
  delete := by
    intro w session sess h0 hs hf
    exact all_set h0 (hdelete session sess (all_at h0 hs) hf)
  arm := by
    intro w session sess x h0 hs _ hx hx2 hx3
    unfold socket_async_wait
    split
    · rename_i ho
      exact all_store h0 (harm session sess x (all_at h0 hs) hx hx2 ho hx3)
    · exact h0

/-- A predicate on the heap cells is kept by the loop as soon as each statement, and the
removal of a fired wait, keeps it on the cell it rewrites. -/
theorem all_loopSafe (Q : Nat → Slot → Prop)
    (hsock : ∀ p sess what sock (s : Int) (_ : Q p ⟨sess, false⟩),
      (what = CURL_POLL_REMOVE ∧ sock = sess.socket_.close ∨
        what ≠ CURL_POLL_REMOVE ∧ ∃ easy, sock =
          TcpSocket.mk true s (sess.socket_.waits ++ wantedWaits easy s what p)) →
      Q p ⟨{ sess with newest_event_ := what, socket_ := sock }, false⟩)
    (hwrite : ∀ p sess html, Q p ⟨sess, false⟩ → Q p ⟨{ sess with html_ := html }, false⟩)
    (hsink : ∀ p sess, Q p ⟨sess, false⟩ → Q p ⟨{ sess with finished_ := true }, false⟩)
    (hdelete : ∀ p sess, Q p ⟨sess, false⟩ → sess.finished_ = true →
      Q p ⟨{ sess with socket_ := sess.socket_.close }, true⟩)
    (harm : ∀ p sess x, Q p ⟨sess, false⟩ → x.session = p → x.wellTagged →
      sess.socket_.is_open = true → Int.land sess.newest_event_ x.what ≠ 0 →
      Q p ⟨{ sess with socket_ := { sess.socket_ with waits := sess.socket_.waits ++ [x] } },
        false⟩)
    (herase : ∀ p sess idx, Q p ⟨sess, false⟩ →
      Q p ⟨{ sess with
             socket_ := { sess.socket_ with waits := sess.socket_.waits.eraseIdx idx } },
        false⟩) :
    LoopSafe fun w => w.all Q where
  toHandlerSafe := all_handlerSafe Q hsock hwrite hsink hdelete harm
  timerPop := fun w x rest h0 _ => h0
  readyPop := fun w x rest h0 _ => h0
  waitErase := by
    intro w session sess idx x h0 hs _
    exact all_store h0 (herase session sess idx (all_at h0 hs))

theorem timerBound_loopSafe : LoopSafe TimerBound where
  sock := by
    intro w easy s what w1 h0 h
    rcases socket_callback_ok_inv h with rfl | ⟨p, sess, sock, extra, _, hs, rfl, hc⟩
    · exact h0
    · exact h0
  timer := by
    intro w t h0
    unfold timer_callback TimerBound
    split
    · simp [timer_arm, timer_cancel]
    · split <;> simp [post_timer, timer_cancel]
  write := by
    intro w ptr size nmemb u r h0 h
    obtain ⟨sess, hs, rfl⟩ := write_callback_ok_inv h
    exact h0
  log := fun w s what d h0 => h0
  read := fun w m rest h0 _ _ => h0
  sink := fun w m rest p s h0 _ _ _ _ => h0
  cancel := by
    intro w h0
    simp [TimerBound, timer_cancel]
  delete := fun w session sess h0 _ _ => h0
  arm := by
    intro w session sess x h0 hs _ hx hx2 hx3
    unfold socket_async_wait
    split
    · exact h0
    · exact h0
  timerPop := by
    intro w x rest h0 hw
    simp only [TimerBound, hw, List.length_cons] at h0 ⊢
    omega
  readyPop := fun w x rest h0 _ => h0
  waitErase := fun w session sess idx x h0 _ _ => h0

theorem closedQuiet_loopSafe : LoopSafe ClosedQuiet := by
  apply all_loopSafe
  · intro p sess what sock s h0 hc hfr ho
    rcases hc with ⟨rfl, _⟩ | ⟨_, easy, rfl⟩
    · exact ⟨(by decide : Int.land CURL_POLL_REMOVE CURL_POLL_IN = 0),
        (by decide : Int.land CURL_POLL_REMOVE CURL_POLL_OUT = 0)⟩
    · simp at ho
  · intro p sess html h0; exact h0
  · intro p sess h0; exact h0
  · intro p sess h0 _ hfr; simp at hfr
  · intro p sess x h0 _ _ ho _ _ ho2
    simp only at ho2
    rw [ho] at ho2
    cases ho2
  · intro p sess idx h0; exact h0

theorem wantedWaits_tagged {easy : Nat} {s what : Int} {p : Nat} :
    ∀ x ∈ wantedWaits easy s what p, x.session = p ∧ x.wellTagged := by
  intro x hx
  unfold wantedWaits at hx
  rw [List.mem_append] at hx
  rcases hx with hx | hx
  · split at hx
    · simp only [List.mem_singleton] at hx
      subst hx
      exact ⟨rfl, Or.inl ⟨rfl, rfl⟩⟩
    · cases hx
  · split at hx
    · simp only [List.mem_singleton] at hx
      subst hx
      exact ⟨rfl, Or.inr ⟨rfl, rfl⟩⟩
    · cases hx

theorem waitsOwned_loopSafe : LoopSafe WaitsOwned := by
  apply all_loopSafe
  · intro p sess what sock s h0 hc x hx
    rcases hc with ⟨_, rfl⟩ | ⟨_, easy, rfl⟩
    · simp [TcpSocket.close] at hx
    · simp only [List.mem_append] at hx
      rcases hx with hx | hx
      · exact h0 x hx
      · exact wantedWaits_tagged x hx
  · intro p sess html h0; exact h0
  · intro p sess h0; exact h0
  · intro p sess h0 _ x hx; simp [TcpSocket.close] at hx
  · intro p sess x h0 hx1 hx2 _ _ y hy
    simp only [List.mem_append, List.mem_singleton] at hy
    rcases hy with hy | rfl
    · exact h0 y hy
    · exact ⟨hx1, hx2⟩
  · intro p sess idx h0 x hx
    exact h0 x (List.mem_of_mem_eraseIdx hx)

theorem freedFinished_loopSafe : LoopSafe FreedFinished := by
  apply all_loopSafe
  · intro p sess what sock s h0 _ hfr; simp at hfr
  · intro p sess html h0 hfr; simp at hfr
  · intro p sess h0 hfr; simp at hfr
  · intro p sess h0 hf _; exact hf
  · intro p sess x h0 _ _ _ _ hfr; simp at hfr
  · intro p sess idx h0 hfr; simp at hfr

theorem HandlerSafe.drainSafe {P : World → Prop} (h : HandlerSafe P) : DrainSafe P :=
  ⟨h.read, h.sink⟩

theorem HandlerSafe.finishSafe {P : World → Prop} (h : HandlerSafe P) : FinishSafe P :=
  ⟨h.cancel, h.delete, h.arm⟩

theorem finish_preserves_of {P : World → Prop} (hP : FinishSafe P) {ec : Bool} {easy : Nat}
    {s what : Int} {session : Nat} {w w1 : World} (h0 : P w)
    (h : asio_socket_callback_finish ec easy s what session w = .ok w1) : P w1 := by
  rcases finish_ok_inv h with ⟨_, rfl⟩ | ⟨_, sess, hs, hc⟩
  · exact hP.cancel w h0
  · rcases hc with ⟨hf, rfl⟩ | ⟨hf, rfl | ⟨x, hx, hx2, _, _, _, _, hx3, rfl⟩⟩
    · exact hP.delete w session sess h0 hs hf
    · exact h0
    · exact hP.arm w session sess x h0 hs hf hx hx2 hx3

/-- A handler either leaves the state as it is (a timer handler invoked with an error) or runs
the callbacks of the drive, records the drive, drains the completion queue and finishes. -/
theorem invoke_hoare {Q R : World → Prop} {hd : Handler} {d : Drive} {w w3 : World}
    (hcalls : ∀ w1 s what, engineCalls d.calls w = .ok w1 → Q (w1.logged s what d))
    (hdrain : DrainSafe Q) (hR : ∀ w2, Q w2 → w2.msgq = [] → R w2) (hfin : FinishSafe R)
    (h : hd.invoke d w = .ok w3) : R w3 ∨ w3 = w := by
  cases hd with
  | timer error =>
    simp only [Handler.invoke] at h
    unfold asio_timer_callback at h
    cases error
    · left
      simp only [Bool.false_eq_true, not_false_eq_true, if_true] at h
      cases h1 : curl_multi_socket_action w CURL_SOCKET_TIMEOUT 0 d with
      | error f => simp [h1] at h
      | ok w1 =>
        simp only [h1] at h
        obtain ⟨wc, hc, hw1⟩ := socket_action_ok_inv h1
        cases h2 : check_multi_info w1 with
        | error f => simp [h2] at h
        | ok w2 =>
          simp only [h2] at h
          subst hw1
          have h3 := check_loop_preserves hdrain.read hdrain.sink _ _ _ rfl (hcalls _ _ _ hc) h2
          have h4 := hR _ h3.1 h3.2
          split at h
          · injection h with h
            exact h ▸ hfin.cancel _ h4
          · injection h with h
            exact h ▸ h4
    · right
      simp at h
      exact h.symm
  | socket ec easy s what session =>
    left
    obtain ⟨w1, w2, h1, h2, _, h3⟩ := asio_socket_callback_ok_inv h
    obtain ⟨wc, hc, rfl⟩ := socket_action_ok_inv h1
    have h4 := check_loop_preserves hdrain.read hdrain.sink _ _ _ rfl (hcalls _ _ _ hc) h2
    exact finish_preserves_of hfin (hR _ h4.1 h4.2) h3

/-- The state on which a turn of the loop invokes its handler: the fired wait or the queued
handler has been removed. -/
theorem step_cases {e : Event} {w w1 : World} (h : step w e = .ok w1) :
    w1 = w ∨
    (∃ x rest, w.timer_.waits = x :: rest ∧
      asio_timer_callback false e.drive { w with timer_ := SteadyTimer.mk rest } = .ok w1) ∨
    (∃ hd rest, w.ready = hd :: rest ∧ hd.invoke e.drive { w with ready := rest } = .ok w1) ∨
    (∃ session sess idx x, w.deref session = .ok sess ∧ sess.socket_.waits[idx]? = some x ∧
      asio_socket_callback false x.easy x.s x.what x.session e.drive
        (w.store session
          { sess with
            socket_ := { sess.socket_ with waits := sess.socket_.waits.eraseIdx idx } }) =
        .ok w1) := by
  cases e with
  | timerExpire d =>
    simp only [step] at h
    cases hw : w.timer_.waits with
    | nil =>
      simp only [hw, Except.ok.injEq] at h
      exact Or.inl h.symm
    | cons x rest =>
      simp only [hw] at h
      exact Or.inr (Or.inl ⟨x, rest, rfl, h⟩)
  | runReady d =>
    simp only [step] at h
    cases hw : w.ready with
    | nil =>
      simp only [hw, Except.ok.injEq] at h
      exact Or.inl h.symm
    | cons x rest =>
      simp only [hw] at h
      exact Or.inr (Or.inr (Or.inl ⟨x, rest, rfl, h⟩))
  | socketReady session idx d =>
    simp only [step] at h
    cases hs : w.heap[session]? with
    | none =>
      simp only [hs, Except.ok.injEq] at h
      exact Or.inl h.symm
    | some slot =>
      rcases slot with ⟨obj, freed⟩
      simp only [hs] at h
      cases freed
      · simp only [Bool.false_eq_true, if_false] at h
        cases hx : obj.socket_.waits[idx]? with
        | none =>
          simp only [hx, Except.ok.injEq] at h
          exact Or.inl h.symm
        | some x =>
          simp only [hx] at h
          exact Or.inr (Or.inr (Or.inr ⟨session, obj, idx, x, deref_eq_ok.mpr hs, hx, h⟩))
      · simp only [if_true, Except.ok.injEq] at h
        exact Or.inl h.symm

/-- The handler a turn invokes, on the state with the fired wait or queued handler removed. -/
theorem step_invoke {e : Event} {w w1 : World} (h : step w e = .ok w1) :
    w1 = w ∨ ∃ (hd : Handler) (wp : World), hd.invoke e.drive wp = .ok w1 ∧
      ((∃ x rest, w.timer_.waits = x :: rest ∧ wp = { w with timer_ := SteadyTimer.mk rest }) ∨
       (∃ rest, w.ready = hd :: rest ∧ wp = { w with ready := rest }) ∨
       (∃ session sess idx x, w.deref session = .ok sess ∧
          sess.socket_.waits[idx]? = some x ∧
          hd = Handler.socket false x.easy x.s x.what x.session ∧
          wp = w.store session
            { sess with
              socket_ := { sess.socket_ with waits := sess.socket_.waits.eraseIdx idx } })) := by
  rcases step_cases h with h1 | ⟨x, rest, hw, h1⟩ | ⟨hd, rest, hw, h1⟩ |
    ⟨session, sess, idx, x, hs, hx, h1⟩
  · exact Or.inl h1
  · exact Or.inr ⟨Handler.timer false, _, h1, Or.inl ⟨x, rest, hw, rfl⟩⟩
  · exact Or.inr ⟨hd, _, h1, Or.inr (Or.inl ⟨rest, hw, rfl⟩)⟩
  · exact Or.inr ⟨Handler.socket false x.easy x.s x.what x.session, _, h1,
      Or.inr (Or.inr ⟨session, sess, idx, x, hs, hx, rfl, rfl⟩)⟩

theorem data_set {l : List Slot} {p : Nat} {old : Slot} (new : Slot) (h : l[p]? = some old)
    (hd : new.obj.data = old.obj.data) : heapData (l.set p new) = heapData l := by
  funext q
  unfold heapData
  rw [List.getElem?_set]
  by_cases hpq : p = q
  · subst hpq
    have hlt : p < l.length := by
      by_contra hc
      rw [List.getElem?_eq_none (by omega)] at h
      cases h
    simp [hlt, h, hd]
  · simp [hpq]

theorem view_store_same {w : World} {p : Nat} {sess s : Session} (hs : w.deref p = .ok sess)
    (hd : s.data = sess.data) : (w.store p s).view = w.view := by
  have := data_set ⟨s, false⟩ (deref_eq_ok.mp hs) hd
  simp only [World.view, World.store, this]

theorem view_store {w : World} {p : Nat} {sess s : Session} (hs : w.deref p = .ok sess) :
    (w.store p s).view =
      { w.view with data := fun q => if q = p then some s.data else w.view.data q } := by
  have hlt := deref_lt hs
  simp only [World.view, World.store, View.mk.injEq, true_and]
  funext q
  unfold heapData
  rw [List.getElem?_set]
  by_cases hpq : p = q
  · subst hpq
    simp [hlt]
  · have : ¬ q = p := fun h => hpq h.symm
    simp [hpq, this]

theorem view_socket_callback {w w1 : World} {easy : Nat} {s what : Int}
    (h : socket_callback w easy s what = .ok w1) : w1.view = w.view := by
  rcases socket_callback_ok_inv h with rfl | ⟨p, sess, sock, extra, _, hs, rfl, _⟩
  · rfl
  · exact view_store_same (s := { sess with newest_event_ := what, socket_ := sock }) hs rfl

theorem view_timer_callback (w : World) (t : Int) : (timer_callback w t).view = w.view := by
  unfold timer_callback
  split
  · rfl
  · split <;> rfl

theorem view_delete {w : World} {p : Nat} {sess : Session} (hs : w.deref p = .ok sess) :
    (delete_session w p sess).view = w.view := by
  have := data_set ⟨{ sess with socket_ := sess.socket_.close }, true⟩
    (deref_eq_ok.mp hs) rfl
  simp only [World.view, delete_session, this]

theorem view_arm {w : World} {p : Nat} {sess : Session} (hs : w.deref p = .ok sess)
    (x : SocketWait) : (socket_async_wait w p sess x).view = w.view := by
  unfold socket_async_wait
  split
  · exact view_store_same hs rfl
  · rfl

/-- A predicate on the view is kept by the statements that follow Drain Completions. -/
theorem view_finishSafe (F : View → Prop) : FinishSafe fun w => F w.view where
  cancel := fun w h0 => h0
  delete := by
    intro w session sess h0 hs _
    show F (delete_session w session sess).view
    rw [view_delete hs]
    exact h0
  arm := by
    intro w session sess x h0 hs _ _ _ _
    show F (socket_async_wait w session sess x).view
    rw [view_arm hs]
    exact h0

/-- The view after the callbacks of a drive: only `write_callback` changes it, by appending
to `html_`. -/
theorem view_engineCalls {F : View → Prop}
    (hwrite : ∀ (w : World) (ptr : List UInt8) (size nmemb u : Nat) (sess : Session),
      F w.view → w.deref u = .ok sess →
      F (w.store u
          { sess with html_ := sess.html_ ++ ptr.take ((size * nmemb) % 2 ^ SIZE_WIDTH) }).view) :
    ∀ (cs : List EngineCall) (w w1 : World), F w.view → engineCalls cs w = .ok w1 →
      F w1.view := by
  apply engineCalls_preserves (P := fun w => F w.view)
  · intro w easy s what w1 h0 h
    show F w1.view
    rw [view_socket_callback h]
    exact h0
  · intro w t h0
    show F (timer_callback w t).view
    rw [view_timer_callback]
    exact h0
  · intro w ptr size nmemb u r h0 h
    obtain ⟨sess, hs, rfl⟩ := write_callback_ok_inv h
    exact hwrite w ptr size nmemb u sess h0 hs

/-- The view of the state on which a turn invokes its handler is the view before the turn. -/
theorem view_step_invoke {e : Event} {w w1 : World} (h : step w e = .ok w1) :
    w1 = w ∨ ∃ (hd : Handler) (wp : World), hd.invoke e.drive wp = .ok w1 ∧
      wp.view = w.view := by
  rcases step_invoke h with h1 | ⟨hd, wp, hi, hc⟩
  · exact Or.inl h1
  · refine Or.inr ⟨hd, wp, hi, ?_⟩
    rcases hc with ⟨x, rest, _, rfl⟩ | ⟨rest, _, rfl⟩ | ⟨session, sess, idx, x, hs, _, _, rfl⟩
    · rfl
    · rfl
    · exact view_store_same hs rfl

theorem loggedMsgs_append (l1 l2 : List DriveRecord) :
    loggedMsgs (l1 ++ l2) = loggedMsgs l1 ++ loggedMsgs l2 := by
  induction l1 with
  | nil => rfl
  | cons r rs ih => simp [loggedMsgs, ih]

theorem view_logged (w : World) (s what : Int) (d : Drive) :
    (w.logged s what d).view =
      { w.view with
        msgq := w.view.msgq ++ d.msgs
        engineLog := w.view.engineLog ++ [{ sockfd := s, ev_bitmask := what, drive := d }] } :=
  rfl

/-- A handler, seen on the view: the callbacks of the drive establish `F`, recording the drive
turns `F` into `G`, and reading a message keeps `G`. -/
theorem view_invoke {F G : View → Prop} {hd : Handler} {d : Drive} {w w3 : World}
    (hcalls : ∀ w1, engineCalls d.calls w = .ok w1 → F w1.view)
    (hlog : ∀ (v : View) s what, F v →
      G { v with
          msgq := v.msgq ++ d.msgs
          engineLog := v.engineLog ++ [{ sockfd := s, ev_bitmask := what, drive := d }] })
    (hread : ∀ (v : View) m rest, G v → v.msgq = m :: rest → m.msg ≠ CURLMSG_DONE →
      G { v with msgq := rest })
    (hsink : ∀ (v : View) m rest p sd, G v → v.msgq = m :: rest → m.msg = CURLMSG_DONE →
      v.priv.lookup m.easy_handle = some (some p) → v.data p = some sd →
      G { v with
          msgq := rest
          sinkLog := v.sinkLog ++ [SinkCall.mk p sd.url sd.html]
          data := fun q => if q = p then some { sd with finished := true } else v.data q })
    (h : hd.invoke d w = .ok w3) : (G w3.view ∧ w3.view.msgq = []) ∨ w3 = w := by
  refine invoke_hoare (Q := fun w => G w.view) (R := fun w => G w.view ∧ w.view.msgq = [])
    ?_ ⟨?_, ?_⟩ (fun w2 h1 h2 => ⟨h1, h2⟩) (view_finishSafe fun v => G v ∧ v.msgq = []) h
  · intro w1 s what hc
    show G (w1.logged s what d).view
    rw [view_logged]
    exact hlog _ s what (hcalls w1 hc)
  · intro w m rest h0 hq hm
    exact hread w.view m rest h0 hq hm
  · intro w m rest p s h0 hq hm hp hs
    have hs1 : World.deref
        { w with msgq := rest, sinkLog := w.sinkLog ++ [SinkCall.mk p s.url_ s.html_] } p =
        .ok s := hs
    show G (World.store _ p { s with finished_ := true }).view
    rw [view_store hs1]
    have hd : w.view.data p = some s.data := by
      simp [World.view, heapData, deref_eq_ok.mp hs]
    exact hsink w.view m rest p s.data h0 hq hm hp hd

/-! ### Exactly-once delivery -/

theorem delivered_invoke {pr : List (Nat × Option Nat)} {hd : Handler} {d : Drive}
    {w w3 : World} (h0 : Delivered pr w.view) (h : hd.invoke d w = .ok w3) :
    Delivered pr w3.view := by
  have key := view_invoke (F := Delivered pr) (G := Delivering pr) (d := d) (w := w)
    ?_ ?_ ?_ ?_ h
  · rcases key with ⟨⟨h1, h2, h3⟩, h4⟩ | rfl
    · refine ⟨h1, h4, ?_, h3⟩
      intro p
      have := h2 p
      rw [h4] at this
      simpa [doneCount] using this
    · exact h0
  · intro w1 hc
    refine view_engineCalls (F := Delivered pr) ?_ _ _ _ h0 hc
    intro w ptr size nmemb u sess hF hs
    rw [view_store hs]
    obtain ⟨h1, h2, h3, h4⟩ := hF
    refine ⟨h1, h2, h3, ?_⟩
    intro c hc
    obtain ⟨sd, hsd, hfin⟩ := h4 c hc
    by_cases hcu : c.session = u
    · refine ⟨_, if_pos hcu, ?_⟩
      have : w.view.data u = some sess.data := by
        simp [World.view, heapData, deref_eq_ok.mp hs]
      rw [hcu, this] at hsd
      injection hsd with hsd
      rw [← hsd] at hfin
      exact hfin
    · exact ⟨sd, by simp only [if_neg hcu]; exact hsd, hfin⟩
  · intro v s what hF
    obtain ⟨h1, h2, h3, h4⟩ := hF
    refine ⟨h1, ?_, h4⟩
    intro p
    simp only [loggedMsgs_append, loggedMsgs, List.append_nil, h2, List.nil_append]
    rw [h3 p]
    simp [doneCount, List.countP_append, Nat.add_comm]
  · intro v m rest hG hq hm
    obtain ⟨h1, h2, h3⟩ := hG
    refine ⟨h1, ?_, h3⟩
    intro p
    have := h2 p
    rw [hq] at this
    simpa [doneCount, List.countP_cons, hm] using this
  · intro v m rest p sd hG hq hm hp hd
    obtain ⟨h1, h2, h3⟩ := hG
    refine ⟨h1, ?_, ?_⟩
    · intro p1
      have := h2 p1
      rw [hq] at this
      rw [h1] at hp
      by_cases hpp : p = p1
      · subst hpp
        simp only [sinkCount, doneCount, List.countP_append, List.countP_cons, hm, hp,
          List.countP_nil, beq_self_eq_true, Bool.and_self, if_true] at this ⊢
        omega
      · have hne : (some (some p) == some (some p1)) = false := by
          simp [hpp]
        have hne2 : (p == p1) = false := by simp [hpp]
        simp only [sinkCount, doneCount, List.countP_append, List.countP_cons, hm, hp,
          List.countP_nil, beq_self_eq_true, hne, hne2, Bool.and_false] at this ⊢
        simpa using this
    · intro c hc
      simp only [List.mem_append, List.mem_singleton] at hc
      rcases hc with hc | rfl
      · obtain ⟨sd1, hsd1, hfin⟩ := h3 c hc
        by_cases hcp : c.session = p
        · exact ⟨_, if_pos hcp, rfl⟩
        · exact ⟨sd1, by simp only [if_neg hcp]; exact hsd1, hfin⟩
      · exact ⟨_, if_pos rfl, rfl⟩

theorem delivered_step {pr : List (Nat × Option Nat)} {e : Event} {w w1 : World}
    (h0 : Delivered pr w.view) (h : step w e = .ok w1) : Delivered pr w1.view := by
  rcases view_step_invoke h with rfl | ⟨hd, wp, hi, hv⟩
  · exact h0
  · exact delivered_invoke (hv ▸ h0) hi

theorem delivered_run {pr : List (Nat × Option Nat)} :
    ∀ (evs : List Event) (w w1 : World), Delivered pr w.view → run evs w = .ok w1 →
      Delivered pr w1.view := by
  intro evs
  induction evs with
  | nil =>
    intro w w1 h0 h
    simp only [run, Except.ok.injEq] at h
    exact h ▸ h0
  | cons e es ih =>
    intro w w1 h0 h
    simp only [run] at h
    cases hs : step w e with
    | error f => simp [hs] at h
    | ok w2 =>
      simp only [hs] at h
      exact ih w2 w1 (delivered_step h0 hs) h

theorem delivered_append (q : Nat) (l1 l2 : List DriveRecord) :
    delivered q (l1 ++ l2) = delivered q l1 ++ delivered q l2 := by
  induction l1 with
  | nil => rfl
  | cons r rs ih => simp [delivered, ih]

theorem holding_calls {u0 : Nat → String} :
    ∀ (cs : List EngineCall) (w w1 : World) (H : Nat → List UInt8),
      (∀ c ∈ cs, c.wellFormed) → Holding u0 H w.view → engineCalls cs w = .ok w1 →
      Holding u0 (fun q => H q ++ writesTo q cs) w1.view ∧
        w1.view.engineLog = w.view.engineLog ∧ w1.view.sinkLog = w.view.sinkLog := by
  intro cs
  induction cs with
  | nil =>
    intro w w1 H _ h0 h
    simp only [engineCalls, Except.ok.injEq] at h
    subst h
    simpa [writesTo] using h0
  | cons c cs ih =>
    intro w w1 H hwf h0 h
    simp only [engineCalls] at h
    cases hc : engineCall w c with
    | error f => simp [hc] at h
    | ok w2 =>
      simp only [hc] at h
      have hwf1 : ∀ c1 ∈ cs, c1.wellFormed := fun c1 h1 => hwf c1 (List.mem_cons_of_mem _ h1)
      cases c with
      | socket easy s what =>
        have hv : w2.view = w.view := view_socket_callback hc
        have := ih w2 w1 H hwf1 (hv ▸ h0) h
        rw [hv] at this
        simpa [writesTo] using this
      | timer t =>
        simp only [engineCall, Except.ok.injEq] at hc
        have hv : w2.view = w.view := hc ▸ view_timer_callback w t
        have := ih w2 w1 H hwf1 (hv ▸ h0) h
        rw [hv] at this
        simpa [writesTo] using this
      | write u ptr size nmemb =>
        simp only [engineCall] at hc
        cases hr : write_callback w ptr size nmemb u with
        | error f => simp [hr] at hc
        | ok r =>
          simp only [hr, Except.ok.injEq] at hc
          obtain ⟨sess, hs, rfl⟩ := write_callback_ok_inv hr
          subst hc
          have hw := hwf (.write u ptr size nmemb) (List.mem_cons_self _ _)
          simp only [EngineCall.wellFormed] at hw
          have htake : ptr.take ((size * nmemb) % 2 ^ SIZE_WIDTH) = ptr := by
            rw [Nat.mod_eq_of_lt hw.2]
            exact List.take_of_length_le (by omega)
          have hdata : w.view.data u = some sess.data := by
            simp [World.view, heapData, deref_eq_ok.mp hs]
          simp only [htake] at h
          have hv := view_store (s := { sess with html_ := sess.html_ ++ ptr }) hs
          have h1 : Holding u0 (fun q => H q ++ (if u = q then ptr else []))
              (w.store u { sess with html_ := sess.html_ ++ ptr }).view := by
            rw [hv]
            intro q sd hq
            simp only at hq
            by_cases hqu : q = u
            · subst hqu
              simp only [if_true, Option.some.injEq] at hq
              subst hq
              obtain ⟨ha, hb⟩ := h0 q _ hdata
              simp only [Session.data] at ha hb ⊢
              rw [ha]
              exact ⟨by simp, hb⟩
            · simp only [if_neg hqu] at hq
              have hne : ¬ u = q := fun h => hqu h.symm
              simpa [hne] using h0 q sd hq
          have := ih _ w1 _ hwf1 h1 h
          rw [hv] at this
          simpa [writesTo, List.append_assoc] using this

theorem accumulated_invoke {u0 : Nat → String} {hd : Handler} {d : Drive} {w w3 : World}
    (hwf : d.wellFormed) (h0 : Accumulated u0 w.view) (h : hd.invoke d w = .ok w3) :
    Accumulated u0 w3.view ∧ ∃ new, w3.sinkLog = w.sinkLog ++ new ∧
      ∀ c ∈ new, c.html = delivered c.session w3.engineLog ∧ c.url = u0 c.session := by
  let D : Nat → List UInt8 := fun q => delivered q w.engineLog ++ writesTo q d.calls
  have key := view_invoke
    (F := fun v => Holding u0 D v ∧ v.engineLog = w.engineLog ∧ v.sinkLog = w.sinkLog)
    (G := fun v => Holding u0 D v ∧ (∀ q, delivered q v.engineLog = D q) ∧
      ∃ new, v.sinkLog = w.sinkLog ++ new ∧ ∀ c ∈ new, c.html = D c.session ∧ c.url = u0 c.session)
    (d := d) (w := w) ?_ ?_ ?_ ?_ h
  · rcases key with ⟨⟨h1, h2, new, h3, h4⟩, _⟩ | rfl
    · refine ⟨?_, new, h3, ?_⟩
      · intro q sd hq
        have := h1 q sd hq
        refine ⟨?_, this.2⟩
        show sd.html = delivered q w3.view.engineLog
        rw [h2 q]
        exact this.1
      · intro c hc
        have h5 : delivered c.session w3.engineLog = D c.session := h2 c.session
        rw [h5]
        exact h4 c hc
    · exact ⟨h0, [], by simp, by simp⟩
  · intro w1 hc
    exact holding_calls d.calls w w1 _ hwf h0 hc
  · intro v s what hF
    obtain ⟨h1, h2, h3⟩ := hF
    refine ⟨h1, ?_, [], by simpa using h3, by simp⟩
    intro q
    simp only [h2, delivered_append, delivered, List.append_nil]
  · intro v m rest hG _ _
    exact hG
  · intro v m rest p sd hG _ _ _ hd
    obtain ⟨h1, h2, new, h3, h4⟩ := hG
    refine ⟨?_, h2, new ++ [SinkCall.mk p sd.url sd.html], ?_, ?_⟩
    · intro q sd1 hq
      simp only at hq
      by_cases hqp : q = p
      · subst hqp
        simp only [if_true, Option.some.injEq] at hq
        subst hq
        exact h1 q sd hd
      · simp only [if_neg hqp] at hq
        exact h1 q sd1 hq
    · simp [h3]
    · intro c hc
      simp only [List.mem_append, List.mem_singleton] at hc
      rcases hc with hc | rfl
      · exact h4 c hc
      · exact h1 p sd hd

theorem accumulated_step {u0 : Nat → String} {e : Event} {w w1 : World}
    (hwf : e.drive.wellFormed) (h0 : Accumulated u0 w.view) (h : step w e = .ok w1) :
    Accumulated u0 w1.view ∧ ∃ new, w1.sinkLog = w.sinkLog ++ new ∧
      ∀ c ∈ new, c.html = delivered c.session w1.engineLog ∧ c.url = u0 c.session := by
  rcases view_step_invoke h with rfl | ⟨hd, wp, hi, hv⟩
  · exact ⟨h0, [], by simp, by simp⟩
  · have hsl : wp.sinkLog = w.sinkLog := congrArg View.sinkLog hv
    have := accumulated_invoke hwf (hv ▸ h0) hi
    rw [hsl] at this
    exact this

theorem accumulated_run {u0 : Nat → String} :
    ∀ (evs : List Event) (w w1 : World), (∀ e ∈ evs, e.drive.wellFormed) →
      Accumulated u0 w.view → run evs w = .ok w1 → Accumulated u0 w1.view := by
  intro evs
  induction evs with
  | nil =>
    intro w w1 _ h0 h
    simp only [run, Except.ok.injEq] at h
    exact h ▸ h0
  | cons e es ih =>
    intro w w1 hwf h0 h
    simp only [run] at h
    cases hs : step w e with
    | error f => simp [hs] at h
    | ok w2 =>
      simp only [hs] at h
      exact ih w2 w1 (fun e1 h1 => hwf e1 (List.mem_cons_of_mem _ h1))
        (accumulated_step (hwf e (List.mem_cons_self _ _)) h0 hs).1 h

/-! ## Consequences of the initial state -/

theorem initial_delivered {w : World} (h : Initial w) : Delivered w.priv w.view := by
  obtain ⟨_, hq, hs, hl, _⟩ := h
  refine ⟨rfl, hq, ?_, ?_⟩
  · intro p
    simp [World.view, hs, hl, sinkCount, doneCount, loggedMsgs]
  · intro c hc
    simp [World.view, hs] at hc

theorem initial_accumulated {w : World} (h : Initial w) : Accumulated w.url w.view := by
  obtain ⟨hh, _, _, hl, _⟩ := h
  intro q sd hq
  simp only [World.view, heapData] at hq
  cases hs : w.heap[q]? with
  | none => simp [hs] at hq
  | some slot =>
    simp only [hs, Option.map_some', Option.some.injEq] at hq
    subst hq
    have hm : slot ∈ w.heap := List.getElem?_mem hs
    refine ⟨?_, ?_⟩
    · simp [Session.data, (hh slot hm).2.1, World.view, hl, delivered]
    · simp [Session.data, World.url, hs]

theorem initial_closedQuiet {w : World} (h : Initial w) : ClosedQuiet w := by
  intro q slot hq _ _
  have hm : slot ∈ w.heap := List.getElem?_mem hq
  rw [(h.1 slot hm).2.2.2.1]
  exact ⟨by decide, by decide⟩

theorem initial_waitsOwned {w : World} (h : Initial w) : WaitsOwned w := by
  intro q slot hq x hx
  have hm : slot ∈ w.heap := List.getElem?_mem hq
  rw [(h.1 slot hm).2.2.2.2.2] at hx
  cases hx

theorem initial_fidelity {w : World} (h : Initial w) : Fidelity w := by
  intro q slot hq _ k _ hk
  have hm : slot ∈ w.heap := List.getElem?_mem hq
  exfalso
  apply hk
  rw [(h.1 slot hm).2.2.2.1]
  cases k <;> decide

/-- The statement `new Session(url, Finish)` keeps the state initial. -/
theorem initial_new_Session {w : World} (url : String) (h : Initial w) :
    Initial (new_Session w url).1 := by
  obtain ⟨hh, hrest⟩ := h
  refine ⟨?_, hrest⟩
  intro slot hm
  simp only [new_Session, List.mem_append, List.mem_singleton] at hm
  rcases hm with hm | rfl
  · exact hh slot hm
  · simp [Session.create]

/-- The call `session->Init()` keeps the state initial. -/
theorem initial_Init {w : World} {p easy : Nat} {mc : Int} {r : World × Int} (h : Initial w)
    (hr : Session.Init w p easy mc = .ok r) : Initial r.1 := by
  obtain ⟨hh, hrest⟩ := h
  unfold Session.Init at hr
  cases hs : w.deref p with
  | error f => simp [hs] at hr
  | ok sess =>
    simp only [hs] at hr
    have hsess := hh _ (List.getElem?_mem (deref_eq_ok.mp hs))
    split at hr
    · injection hr with hr
      subst hr
      refine ⟨?_, hrest⟩
      intro slot hm
      rcases List.mem_or_eq_of_mem_set hm with hm | rfl
      · exact hh slot hm
      · exact hsess
    · injection hr with hr
      subst hr
      refine ⟨?_, hrest⟩
      intro slot hm
      rcases List.mem_or_eq_of_mem_set hm with hm | rfl
      · exact hh slot hm
      · exact hsess

/-! ## The claims -/

/-- Claim C1: in every run of the loop from the initial state that does not fault, after each handler
the completion queue has been read to the end, the sink of every Session has been invoked
exactly as many times as the engine has reported that Session's transfer done (so once if it
was reported once, never twice, never zero), and every Session whose sink was invoked has
`finished_` set. -/
theorem sink_invoked_once_per_done (w0 w : World) (evs : List Event) (h0 : Initial w0)
    (hrun : run evs w0 = .ok w) :
    w.msgq = [] ∧ w.priv = w0.priv ∧
    (∀ p, sinkCount p w.sinkLog = doneCount w.priv p (loggedMsgs w.engineLog)) ∧
    (∀ c ∈ w.sinkLog, ∃ slot, w.heap[c.session]? = some slot ∧ slot.obj.finished_ = true) := by
  obtain ⟨h1, h2, h3, h4⟩ := delivered_run evs w0 w (initial_delivered h0) hrun
  have h1 : w.priv = w0.priv := h1
  refine ⟨h2, h1, ?_, ?_⟩
  · intro p
    rw [h1]
    exact h3 p
  · intro c hc
    obtain ⟨sd, hsd, hf⟩ := h4 c hc
    simp only [World.view, heapData] at hsd
    cases hs : w.heap[c.session]? with
    | none => simp [hs] at hsd
    | some slot =>
      simp only [hs, Option.map_some', Option.some.injEq] at hsd
      subst hsd
      exact ⟨slot, rfl, hf⟩

/-- Witness of C1: the first two turns of the concrete execution. -/
theorem sink_invoked_once_per_done_witness :
    Initial exStart ∧ run [exTurn1, exTurn2] exStart = .ok exDone ∧
    (exDone.msgq = [] ∧ exDone.priv = exStart.priv ∧
    (∀ p, sinkCount p exDone.sinkLog = doneCount exDone.priv p (loggedMsgs exDone.engineLog)) ∧
    (∀ c ∈ exDone.sinkLog,
      ∃ slot, exDone.heap[c.session]? = some slot ∧ slot.obj.finished_ = true)) :=
  ⟨by simp [Initial, exStart, Session.create], rfl,
    sink_invoked_once_per_done exStart exDone [exTurn1, exTurn2]
      (by simp [Initial, exStart, Session.create]) rfl⟩

/-- Claim C2: a write callback whose chunk holds `size * nmemb` bytes appends exactly the chunk to
`html_` and returns `size * nmemb`; and in every run from the initial state in which the engine
keeps that contract, every sink invocation of a turn receives the Session's request url and the
concatenation, in order, of all chunks the engine has delivered to that Session. -/
theorem sink_receives_concatenation (w0 w1 w2 : World) (evs : List Event) (e : Event)
    (h0 : Initial w0) (hwf : ∀ e1 ∈ evs ++ [e], e1.drive.wellFormed)
    (hrun : run evs w0 = .ok w1) (hstep : step w1 e = .ok w2)
    (w : World) (ptr : List UInt8) (size nmemb u : Nat) (sess : Session)
    (hs : w.deref u = .ok sess) (hlen : ptr.length = size * nmemb)
    (hfit : size * nmemb < 2 ^ SIZE_WIDTH) :
    write_callback w ptr size nmemb u =
      .ok (w.store u { sess with html_ := sess.html_ ++ ptr }, size * nmemb) ∧
    ∃ new, w2.sinkLog = w1.sinkLog ++ new ∧
      ∀ c ∈ new, c.html = delivered c.session w2.engineLog ∧ c.url = w0.url c.session := by
  constructor
  · rw [write_callback_ok hs, Nat.mod_eq_of_lt hfit, List.take_of_length_le (by omega)]
  · have h1 := accumulated_run evs w0 w1
      (fun e1 he => hwf e1 (List.mem_append_left _ he)) (initial_accumulated h0) hrun
    exact (accumulated_step (hwf e (by simp)) h1 hstep).2

/-- Witness of C2: the second turn of the concrete execution delivers the bytes 104 and 105 to
A and completes it. -/
theorem sink_receives_concatenation_witness :
    Initial exStart ∧ run [exTurn1] exStart = .ok exArmed ∧ step exArmed exTurn2 = .ok exDone ∧
    exArmed.deref 0 = .ok exSessionA ∧
    (write_callback exArmed [104, 105] 1 2 0 =
      .ok (exArmed.store 0 { exSessionA with html_ := exSessionA.html_ ++ [104, 105] }, 1 * 2) ∧
    ∃ new, exDone.sinkLog = exArmed.sinkLog ++ new ∧
      ∀ c ∈ new, c.html = delivered c.session exDone.engineLog ∧
        c.url = exStart.url c.session) :=
  ⟨by simp [Initial, exStart, Session.create], rfl, rfl, rfl,
    sink_receives_concatenation exStart exArmed exDone [exTurn1] exTurn2
      (by simp [Initial, exStart, Session.create])
      (by simp [Drive.wellFormed, Event.drive, exTurn1, exTurn2, EngineCall.wellFormed,
        SIZE_WIDTH])
      rfl rfl exArmed [104, 105] 1 2 0 exSessionA rfl rfl (by decide)⟩

/-- Claim C3 (the code breaks it): in the concrete execution the second turn completes and deletes
Session A while the handler of its cancelled write wait is queued with A's pointer; the third
turn runs that handler, which reads `finished_` of the deleted Session. -/
theorem stale_wait_reads_deleted_session :
    finishedAt (run [exTurn1, exTurn2] exStart) 0 = some true ∧
    freedAt (run [exTurn1, exTurn2] exStart) 0 = some true ∧
    exDone.ready = [Handler.socket true 101 7 2 0] ∧
    run [exTurn1, exTurn2, exTurn3] exStart = .error (.useAfterFree 0) :=
  ⟨rfl, rfl, rfl, rfl⟩

/-- Claim C4 as stated fails: A's read wait fires in `exArmed`, the engine reports A done and no
transfer running; after the handler A is completed and has not been deleted. -/
theorem completed_session_kept_when_idle :
    finishedAt (asio_socket_callback_drive false 7 1 exLastDrive exArmed) 0 = some true ∧
    finishedAt (step exArmed (.socketReady 0 0 exLastDrive)) 0 = some true ∧
    freedAt (step exArmed (.socketReady 0 0 exLastDrive)) 0 = some false :=
  ⟨rfl, rfl, rfl⟩

theorem freedAt_ok_live {w : World} {p : Nat} {sess : Session} (h : w.deref p = .ok sess) :
    freedAt (.ok w) p = some false := by
  simp [freedAt, deref_eq_ok.mp h]

/-- Claim C4 as amended: for every socket-ready event whose owning Session is live after the engine
drive and Drain Completions, the handler returns, and afterwards the Session is deleted exactly
when the running count is positive and the Session is completed. -/
theorem completed_session_deleted_iff_active (ec : Bool) (easy : Nat) (s what : Int)
    (session : Nat) (d : Drive) (w w2 : World) (sess : Session)
    (hdrive : asio_socket_callback_drive ec s what d w = .ok w2)
    (hs : w2.deref session = .ok sess) :
    freedAt (asio_socket_callback ec easy s what session d w) session =
      some (decide (0 < w2.still_running_) && sess.finished_) := by
  unfold asio_socket_callback
  rw [hdrive]
  simp only
  by_cases h0 : 0 < w2.still_running_
  · cases hf : sess.finished_
    · rw [finish_rearm h0 hs hf]
      simp only [h0, decide_True, Bool.and_false]
      split
      · obtain ⟨s1, hs1⟩ := deref_socket_async_wait hs
          { kind := .wait_read, easy := easy, s := s, what := CURL_POLL_IN, session := session }
        exact freedAt_ok_live hs1
      · split
        · obtain ⟨s1, hs1⟩ := deref_socket_async_wait hs
            { kind := .wait_write, easy := easy, s := s, what := CURL_POLL_OUT,
              session := session }
          exact freedAt_ok_live hs1
        · exact freedAt_ok_live hs
    · rw [finish_delete h0 hs hf]
      have hlt := deref_lt hs
      simp [freedAt, delete_session, List.getElem?_set, hlt, h0]
  · rw [finish_idle (by omega)]
    have : freedAt (.ok (timer_cancel w2)) session = some false :=
      freedAt_ok_live (w := timer_cancel w2) hs
    simp [this, h0]

/-- Witness of C4 as amended: A's read wait fires in `exArmed` while B keeps running. -/
theorem completed_session_deleted_iff_active_witness :
    asio_socket_callback_drive false 7 1 exQuietDrive exArmed =
      .ok { exArmed with engineLog := exArmed.engineLog ++ [⟨7, 1, exQuietDrive⟩] } ∧
    World.deref { exArmed with engineLog := exArmed.engineLog ++ [⟨7, 1, exQuietDrive⟩] } 0 =
      .ok exSessionA ∧
    freedAt (asio_socket_callback false 101 7 1 0 exQuietDrive exArmed) 0 =
      some (decide (0 < World.still_running_
        { exArmed with engineLog := exArmed.engineLog ++ [⟨7, 1, exQuietDrive⟩] }) &&
        exSessionA.finished_) :=
  ⟨rfl, rfl, completed_session_deleted_iff_active false 101 7 1 0 exQuietDrive exArmed
    { exArmed with engineLog := exArmed.engineLog ++ [⟨7, 1, exQuietDrive⟩] } exSessionA rfl rfl⟩

/-- Claim C5 as stated fails: two zero-delay timer requests leave two posted wake-ups pending, and a
zero-delay request followed by a positive one leaves a posted wake-up and an armed wait. -/
theorem two_wakeups_pending :
    pendingWakeups (timer_callback (timer_callback exEmpty 0) 0) = 2 ∧
    pendingWakeups (timer_callback (timer_callback exEmpty 0) 5) = 2 := by
  decide

/-- Claim C5 as amended: in every state reached from a state with at most one armed timer wait, at
most one timer wait is armed; every timer request cancels the armed wait before it arms its
own, and never removes a posted wake-up. -/
theorem at_most_one_timer_wait (w0 w : World) (evs : List Event)
    (h0 : w0.timer_.waits.length ≤ 1) (hrun : run evs w0 = .ok w) :
    w.timer_.waits.length ≤ 1 ∧
    ∀ t : Int, (timer_callback w t).timer_.waits = (if t > 0 then [t] else []) ∧
      w.ready.count (Handler.timer false) ≤
        (timer_callback w t).ready.count (Handler.timer false) := by
  refine ⟨run_preserves timerBound_loopSafe evs w0 w h0 hrun, ?_⟩
  intro t
  unfold timer_callback
  by_cases h1 : t > 0
  · simp [h1, timer_arm, timer_cancel, List.count_append]
  · by_cases h2 : t = 0
    · simp [h2, post_timer, timer_cancel, List.count_append]
    · simp [h1, h2, timer_cancel, List.count_append]

/-- Witness of C5 as amended: the first turn of the concrete execution. -/
theorem at_most_one_timer_wait_witness :
    exStart.timer_.waits.length ≤ 1 ∧ run [exTurn1] exStart = .ok exArmed ∧
    (exArmed.timer_.waits.length ≤ 1 ∧
    ∀ t : Int, (timer_callback exArmed t).timer_.waits = (if t > 0 then [t] else []) ∧
      exArmed.ready.count (Handler.timer false) ≤
        (timer_callback exArmed t).ready.count (Handler.timer false)) :=
  ⟨by decide, rfl, at_most_one_timer_wait exStart exArmed [exTurn1] (by decide) rfl⟩

/-- Claim C6: for every delay, `timer_callback` returns without driving the engine; it cancels the
armed timer waits (their handlers are queued with an error) and then schedules nothing for a
negative delay, one posted wake-up for delay zero, and one timer wait of exactly the delay for a
positive delay. -/
theorem timer_callback_schedules (w : World) (timeout_ms : Int) :
    (timer_callback w timeout_ms).engineLog = w.engineLog ∧
    (timer_callback w timeout_ms).timer_.waits = (if timeout_ms > 0 then [timeout_ms] else []) ∧
    (timer_callback w timeout_ms).ready =
      (w.ready ++ w.timer_.waits.map fun _ => Handler.timer true) ++
        (if timeout_ms = 0 then [Handler.timer false] else []) := by
  unfold timer_callback
  by_cases h1 : timeout_ms > 0
  · have h2 : timeout_ms ≠ 0 := by omega
    simp [h1, h2, timer_arm, timer_cancel]
  · by_cases h2 : timeout_ms = 0
    · simp [h2, post_timer, timer_cancel]
    · simp [h1, h2, timer_cancel]

/-- Claim C8: a notification for a live Session stores `what` in `newest_event_` whatever it held
(also when the handle check then aborts); and for the remove value the handler returns with the
watch closed and no wait armed, the cancelled handlers queued, and the Session not deleted and
otherwise unchanged. -/
theorem socket_callback_overwrites_want_set (w : World) (easy : Nat) (s what : Int)
    (session : Nat) (sess : Session)
    (hp : curl_easy_getinfo w easy = some (some session)) (hs : w.deref session = .ok sess) :
    (∃ w1 sess1, (socket_callback w easy s what = .ok w1 ∨
        socket_callback w easy s what = .error (.assertionFailed w1)) ∧
      w1.deref session = .ok sess1 ∧ sess1.newest_event_ = what) ∧
    (what = CURL_POLL_REMOVE →
      socket_callback w easy s what =
        .ok { w.store session
                { sess with
                  newest_event_ := CURL_POLL_REMOVE
                  socket_ := { is_open := false, native_handle := -1, waits := [] } } with
              ready := w.ready ++ aborted sess.socket_.waits }) := by
  constructor
  · by_cases hw : what = CURL_POLL_REMOVE
    · subst hw
      exact ⟨_, _, Or.inl (socket_callback_remove hp hs),
        deref_store_same (w := w) hs, rfl⟩
    · by_cases hh : sess.socket_.is_open = true → sess.socket_.native_handle = s
      · exact ⟨_, _, Or.inl (socket_callback_arm hp hs hw hh), deref_store_same hs, rfl⟩
      · push_neg at hh
        exact ⟨_, _, Or.inr (socket_callback_mismatch hp hs hw hh.1 hh.2),
          deref_store_same hs, rfl⟩
  · intro hw
    subst hw
    exact socket_callback_remove hp hs

/-- Witness of C8: the engine asks to remove A's socket in `exArmed`. -/
theorem socket_callback_overwrites_want_set_witness :
    curl_easy_getinfo exArmed 101 = some (some 0) ∧ exArmed.deref 0 = .ok exSessionA ∧
    ((∃ w1 sess1, (socket_callback exArmed 101 7 CURL_POLL_REMOVE = .ok w1 ∨
        socket_callback exArmed 101 7 CURL_POLL_REMOVE = .error (.assertionFailed w1)) ∧
      w1.deref 0 = .ok sess1 ∧ sess1.newest_event_ = CURL_POLL_REMOVE) ∧
    (CURL_POLL_REMOVE = CURL_POLL_REMOVE →
      socket_callback exArmed 101 7 CURL_POLL_REMOVE =
        .ok { exArmed.store 0
                { exSessionA with
                  newest_event_ := CURL_POLL_REMOVE
                  socket_ := { is_open := false, native_handle := -1, waits := [] } } with
              ready := exArmed.ready ++ aborted exSessionA.socket_.waits })) :=
  ⟨rfl, rfl, socket_callback_overwrites_want_set exArmed 101 7 CURL_POLL_REMOVE 0 exSessionA
    rfl rfl⟩

/-- Claim C9: for a notification other than remove for a live Session: when the watch is closed it
is assigned `s`, and when it is open with native handle `s` it is kept, and in both cases the
checks pass and the wanted waits are armed; when the watch is open with another native handle
the handler aborts on the assertion, in a state in which no wait has been armed. -/
theorem socket_callback_handle_check (w : World) (easy : Nat) (s what : Int) (session : Nat)
    (sess : Session) (hp : curl_easy_getinfo w easy = some (some session))
    (hs : w.deref session = .ok sess) (hw : what ≠ CURL_POLL_REMOVE) :
    (sess.socket_.is_open = false ∨ sess.socket_.native_handle = s →
      socket_callback w easy s what =
        .ok (w.store session
          { sess with
            newest_event_ := what
            socket_ :=
              { is_open := true, native_handle := s,
                waits := sess.socket_.waits ++ wantedWaits easy s what session } })) ∧
    (sess.socket_.is_open = true ∧ sess.socket_.native_handle ≠ s →
      socket_callback w easy s what =
        .error (.assertionFailed (w.store session { sess with newest_event_ := what }))) := by
  constructor
  · intro h
    apply socket_callback_arm hp hs hw
    intro ho
    rcases h with h | h
    · rw [h] at ho
      cases ho
    · exact h
  · intro h
    exact socket_callback_mismatch hp hs hw h.1 h.2

/-- Witness of C9: the engine asks for readable on socket 7, which A's watch holds. -/
theorem socket_callback_handle_check_witness :
    curl_easy_getinfo exArmed 101 = some (some 0) ∧ exArmed.deref 0 = .ok exSessionA ∧
    CURL_POLL_IN ≠ CURL_POLL_REMOVE ∧
    ((exSessionA.socket_.is_open = false ∨ exSessionA.socket_.native_handle = 7 →
      socket_callback exArmed 101 7 CURL_POLL_IN =
        .ok (exArmed.store 0
          { exSessionA with
            newest_event_ := CURL_POLL_IN
            socket_ :=
              { is_open := true, native_handle := 7,
                waits := exSessionA.socket_.waits ++ wantedWaits 101 7 CURL_POLL_IN 0 } })) ∧
    (exSessionA.socket_.is_open = true ∧ exSessionA.socket_.native_handle ≠ 7 →
      socket_callback exArmed 101 7 CURL_POLL_IN =
        .error (.assertionFailed
          (exArmed.store 0 { exSessionA with newest_event_ := CURL_POLL_IN })))) :=
  ⟨rfl, rfl, by decide,
    socket_callback_handle_check exArmed 101 7 CURL_POLL_IN 0 exSessionA rfl rfl (by decide)⟩

theorem drive_step_preserves {P : World → Prop} (hP : HandlerSafe P) {ec : Bool} {s what : Int}
    {d : Drive} {w w2 : World} (h0 : P w)
    (h : asio_socket_callback_drive ec s what d w = .ok w2) : P w2 := by
  unfold asio_socket_callback_drive at h
  cases h1 : curl_multi_socket_action w s (if ec then CURL_CSELECT_ERR else what) d with
  | error f => simp [h1] at h
  | ok w1 =>
    simp only [h1] at h
    exact (check_preserves hP (drive_preserves hP h0 h1) h).1

/-- The wait a firing arms again is the wait that fired. -/
theorem rearm_fired_wait {easy : Nat} {s what : Int} {session : Nat} {w : World} {sess : Session}
    {x : SocketWait} (h : 0 < w.still_running_) (hs : w.deref session = .ok sess)
    (hf : sess.finished_ = false) (hq : ClosedQuiet w) (hx : x.wellTagged)
    (hxs : x.session = session) (hxe : x.easy = easy) (hxh : x.s = s) (hxw : x.what = what) :
    asio_socket_callback_finish false easy s what session w =
      .ok (if sess.wants x.kind then
            w.store session
              { sess with socket_ := { sess.socket_ with waits := sess.socket_.waits ++ [x] } }
          else w) := by
  rw [finish_rearm h hs hf]
  have hopen : ∀ k : WaitType, sess.wants k → sess.socket_.is_open = true := by
    intro k hk
    by_contra hc
    have hclosed : sess.socket_.is_open = false := by simpa using hc
    have := hq session ⟨sess, false⟩ (deref_eq_ok.mp hs) rfl hclosed
    cases k
    · exact hk this.1
    · exact hk this.2
  have e3 : CURL_POLL_IN ≠ CURL_POLL_OUT := by decide
  rcases x with ⟨k, xe, xs, xw, xp⟩
  simp only at hxs hxe hxh hxw
  subst hxs hxe hxh hxw
  rcases hx with ⟨hk, hw⟩ | ⟨hk, hw⟩
  · simp only at hk hw
    subst hk hw
    by_cases hwant : sess.wants .wait_read
    · have ho := hopen _ hwant
      have hwant1 : Int.land sess.newest_event_ CURL_POLL_IN ≠ 0 := hwant
      simp [hwant, hwant1, socket_async_wait, ho]
    · have hwant1 : ¬ Int.land sess.newest_event_ CURL_POLL_IN ≠ 0 := hwant
      simp [hwant, hwant1, e3]
  · simp only at hk hw
    subst hk hw
    by_cases hwant : sess.wants .wait_write
    · have ho := hopen _ hwant
      have hwant1 : Int.land sess.newest_event_ CURL_POLL_OUT ≠ 0 := hwant
      simp [hwant, hwant1, socket_async_wait, ho, e3.symm]
    · have hwant1 : ¬ Int.land sess.newest_event_ CURL_POLL_OUT ≠ 0 := hwant
      simp [hwant, hwant1, e3.symm]

/-- Claim C10: in every run from the initial state, when a wait of a live Session fires and, after
the engine drive and Drain Completions, the running count is positive and the Session is not
completed, the turn ends with exactly the fired wait armed again if its kind is still in
`newest_event_`, and with nothing armed otherwise; the fired wait is a read wait tagged
`CURL_POLL_IN` or a write wait tagged `CURL_POLL_OUT`, the remove value contains neither kind,
and a handler invoked with a reactor error arms nothing. -/
theorem rearm_only_fired_kind (w0 w1 w2 : World) (evs : List Event) (session idx : Nat)
    (d : Drive) (sess1 sess2 : Session) (x : SocketWait) (h0 : Initial w0)
    (hrun : run evs w0 = .ok w1) (hs1 : w1.deref session = .ok sess1)
    (hx : sess1.socket_.waits[idx]? = some x)
    (hdrive : asio_socket_callback_drive false x.s x.what d
      (w1.store session
        { sess1 with
          socket_ := { sess1.socket_ with waits := sess1.socket_.waits.eraseIdx idx } }) =
      .ok w2)
    (hact : 0 < w2.still_running_) (hs2 : w2.deref session = .ok sess2)
    (hf : sess2.finished_ = false) :
    step w1 (.socketReady session idx d) =
      .ok (if sess2.wants x.kind then
            w2.store session
              { sess2 with
                socket_ := { sess2.socket_ with waits := sess2.socket_.waits ++ [x] } }
          else w2) ∧
    ((x.kind = .wait_read ∧ x.what = CURL_POLL_IN) ∨
      (x.kind = .wait_write ∧ x.what = CURL_POLL_OUT)) ∧
    (sess2.newest_event_ = CURL_POLL_REMOVE → ¬ sess2.wants x.kind) ∧
    ∀ (easy : Nat) (s what : Int),
      asio_socket_callback_finish true easy s what session w2 = .ok w2 := by
  have hown := run_preserves waitsOwned_loopSafe evs w0 w1 (initial_waitsOwned h0) hrun
  have hq1 := run_preserves closedQuiet_loopSafe evs w0 w1 (initial_closedQuiet h0) hrun
  have hxm : x ∈ sess1.socket_.waits := List.getElem?_mem hx
  obtain ⟨hxs, hxt⟩ := hown session ⟨sess1, false⟩ (deref_eq_ok.mp hs1) x hxm
  have hq2 : ClosedQuiet w2 :=
    drive_step_preserves closedQuiet_loopSafe.toHandlerSafe
      (closedQuiet_loopSafe.waitErase w1 session sess1 idx x hq1 hs1 hx) hdrive
  refine ⟨?_, hxt, ?_, ?_⟩
  · simp only [step, deref_eq_ok.mp hs1, Bool.false_eq_true, if_false, hx]
    unfold asio_socket_callback
    rw [hxs, hdrive]
    exact rearm_fired_wait hact hs2 hf hq2 hxt hxs rfl rfl rfl
  · intro hr hw
    apply hw
    rw [hr]
    cases x.kind <;> decide
  · intro easy s what
    rw [finish_rearm hact hs2 hf]
    simp

/-- Witness of C10: A's read wait fires in `exArmed` while both kinds are wanted and both
transfers keep running. -/
theorem rearm_only_fired_kind_witness :
    Initial exStart ∧ run [exTurn1] exStart = .ok exArmed ∧ exArmed.deref 0 = .ok exSessionA ∧
    exSessionA.socket_.waits[0]? =
      some { kind := .wait_read, easy := 101, s := 7, what := 1, session := 0 } ∧
    0 < exFired.still_running_ ∧ exFired.deref 0 = .ok exSessionFired ∧
    exSessionFired.finished_ = false ∧
    (step exArmed (.socketReady 0 0 exQuietDrive) =
      .ok (if exSessionFired.wants WaitType.wait_read then
            exFired.store 0
              { exSessionFired with
                socket_ :=
                  { exSessionFired.socket_ with
                    waits := exSessionFired.socket_.waits ++
                      [{ kind := .wait_read, easy := 101, s := 7, what := 1, session := 0 }] } }
          else exFired) ∧
    ((WaitType.wait_read = WaitType.wait_read ∧ (1 : Int) = CURL_POLL_IN) ∨
      (WaitType.wait_read = WaitType.wait_write ∧ (1 : Int) = CURL_POLL_OUT)) ∧
    (exSessionFired.newest_event_ = CURL_POLL_REMOVE →
      ¬ exSessionFired.wants WaitType.wait_read) ∧
    ∀ (easy : Nat) (s what : Int),
      asio_socket_callback_finish true easy s what 0 exFired = .ok exFired) :=
  ⟨by simp [Initial, exStart, Session.create], rfl, rfl, rfl, by decide, rfl, rfl,
    rearm_only_fired_kind exStart exArmed exFired [exTurn1] 0 0 exQuietDrive exSessionA
      exSessionFired { kind := .wait_read, easy := 101, s := 7, what := 1, session := 0 }
      (by simp [Initial, exStart, Session.create]) rfl rfl rfl rfl (by decide) rfl rfl⟩

/-! ## Watch re-arm fidelity -/

theorem wantedWaits_armed (easy : Nat) (s : Int) (p : Nat) {what : Int} {k : WaitType}
    (h : Int.land what k.bit ≠ 0) : ∃ x ∈ wantedWaits easy s what p, x.kind = k := by
  cases k
  · have h1 : Int.land what CURL_POLL_IN ≠ 0 := h
    exact ⟨{ kind := .wait_read, easy := easy, s := s, what := CURL_POLL_IN, session := p },
      by simp [wantedWaits, h1], rfl⟩
  · have h1 : Int.land what CURL_POLL_OUT ≠ 0 := h
    exact ⟨{ kind := .wait_write, easy := easy, s := s, what := CURL_POLL_OUT, session := p },
      by simp [wantedWaits, h1], rfl⟩

theorem fidelityOn_handlerSafe (S : Nat → WaitType → Prop) : HandlerSafe (FidelityOn S) := by
  apply all_handlerSafe
  · intro p sess what sock s h0 hc _ k _ hk
    rcases hc with ⟨rfl, _⟩ | ⟨_, easy, rfl⟩
    · exfalso
      apply hk
      cases k
      · exact (by decide : Int.land CURL_POLL_REMOVE WaitType.wait_read.bit = 0)
      · exact (by decide : Int.land CURL_POLL_REMOVE WaitType.wait_write.bit = 0)
    · obtain ⟨x, hx, hxk⟩ := wantedWaits_armed easy s p hk
      exact ⟨x, List.mem_append_right _ hx, hxk⟩
  · intro p sess html h0; exact h0
  · intro p sess h0; exact h0
  · intro p sess h0 _ hfr; simp at hfr
  · intro p sess x h0 _ _ _ _ hfr k hS hk
    obtain ⟨y, hy, hyk⟩ := h0 hfr k hS hk
    exact ⟨y, List.mem_append_left _ hy, hyk⟩

theorem still_running_drive {ec : Bool} {s what : Int} {d : Drive} {w w2 : World}
    (h : asio_socket_callback_drive ec s what d w = .ok w2) :
    w2.still_running_ = d.running := by
  unfold asio_socket_callback_drive at h
  cases h1 : curl_multi_socket_action w s (if ec then CURL_CSELECT_ERR else what) d with
  | error f => simp [h1] at h
  | ok w1 =>
    simp only [h1] at h
    obtain ⟨wc, _, rfl⟩ := socket_action_ok_inv h1
    exact (check_loop_preserves (P := fun w => w.still_running_ = d.running)
      (fun w m rest h0 _ _ => h0) (fun w m rest p s h0 _ _ _ _ => h0) _ _ _ rfl rfl h).1

theorem fidelity_erase {w : World} {session idx : Nat} {sess : Session} {x : SocketWait}
    (h0 : Fidelity w) (hs : w.deref session = .ok sess)
    (hx : sess.socket_.waits[idx]? = some x) :
    FidelityOn (fun q k => ¬ (q = session ∧ k = x.kind))
      (w.store session
        { sess with
          socket_ := { sess.socket_ with waits := sess.socket_.waits.eraseIdx idx } }) := by
  intro q slot hq hfr k hS hk
  rw [store_heap_get] at hq
  by_cases hqs : session = q
  · subst hqs
    simp only [if_true, deref_lt hs] at hq
    injection hq with hq
    subst hq
    have hne : k ≠ x.kind := fun hc => hS ⟨rfl, hc⟩
    obtain ⟨y, hy, hyk⟩ := h0 session ⟨sess, false⟩ (deref_eq_ok.mp hs) rfl k trivial hk
    refine ⟨y, ?_, hyk⟩
    show y ∈ sess.socket_.waits.eraseIdx idx
    rw [List.mem_eraseIdx_iff_getElem?]
    obtain ⟨i, hi⟩ := List.getElem?_of_mem hy
    refine ⟨i, ?_, hi⟩
    intro hc
    subst hc
    rw [hx] at hi
    injection hi with hi
    exact hne (hi ▸ hyk.symm)
  · simp only [hqs, if_false] at hq
    exact h0 q slot hq hfr k trivial hk

theorem fidelity_of_except {w : World} (session : Nat) (kind : WaitType)
    (h : FidelityOn (fun q k => ¬ (q = session ∧ k = kind)) w)
    (hk : ∀ slot, w.heap[session]? = some slot → slot.freed = false →
      slot.obj.wants kind → slot.obj.armed kind) : Fidelity w := by
  intro q slot hq hfr k _ hw
  by_cases hc : q = session ∧ k = kind
  · obtain ⟨rfl, rfl⟩ := hc
    exact hk slot hq hfr hw
  · exact h q slot hq hfr k hc hw

theorem fidelity_fired {x : SocketWait} {d : Drive} {session : Nat} {wp w1 : World}
    (hact : 0 < d.running)
    (h0 : FidelityOn (fun q k => ¬ (q = session ∧ k = x.kind)) wp) (hq : ClosedQuiet wp)
    (hxs : x.session = session) (hxt : x.wellTagged)
    (h : asio_socket_callback false x.easy x.s x.what x.session d wp = .ok w1) :
    Fidelity w1 := by
  obtain ⟨_, w2, _, _, hdrive, hfin⟩ := asio_socket_callback_ok_inv h
  have hrun : 0 < w2.still_running_ := by
    rw [still_running_drive hdrive]
    exact hact
  have hF2 := drive_step_preserves (fidelityOn_handlerSafe _) h0 hdrive
  have hq2 := drive_step_preserves closedQuiet_loopSafe.toHandlerSafe hq hdrive
  rw [hxs] at hfin
  cases hs : w2.deref session with
  | error f =>
    unfold asio_socket_callback_finish at hfin
    have : ¬ w2.still_running_ ≤ 0 := by omega
    simp [this, hs] at hfin
  | ok sess =>
    cases hf : sess.finished_
    · rw [rearm_fired_wait hrun hs hf hq2 hxt hxs rfl rfl rfl] at hfin
      injection hfin with hfin
      subst hfin
      by_cases hw : sess.wants x.kind
      · simp only [hw, if_true]
        apply fidelity_of_except session x.kind
        · have := (fidelityOn_handlerSafe fun q k => ¬ (q = session ∧ k = x.kind)).arm
            w2 session sess x hF2 hs hf hxs hxt
          have harm : socket_async_wait w2 session sess x =
              w2.store session
                { sess with
                  socket_ := { sess.socket_ with waits := sess.socket_.waits ++ [x] } } := by
            unfold socket_async_wait
            have ho : sess.socket_.is_open = true := by
              by_contra hc
              have hclosed : sess.socket_.is_open = false := by simpa using hc
              have hz := hq2 session ⟨sess, false⟩ (deref_eq_ok.mp hs) rfl hclosed
              rcases hxt with ⟨hk, _⟩ | ⟨hk, _⟩
              · rw [Session.wants, hk] at hw
                exact hw hz.1
              · rw [Session.wants, hk] at hw
                exact hw hz.2
            simp [ho]
          rw [← harm]
          apply this
          rcases hxt with ⟨hk, hwt⟩ | ⟨hk, hwt⟩
          · rw [Session.wants, hk] at hw
            rw [hwt]
            exact hw
          · rw [Session.wants, hk] at hw
            rw [hwt]
            exact hw
        · intro slot hslot _ _
          rw [store_heap_get] at hslot
          simp only [if_true, deref_lt hs] at hslot
          injection hslot with hslot
          subst hslot
          exact ⟨x, by simp, rfl⟩
      · simp only [hw, if_false]
        apply fidelity_of_except session x.kind hF2
        intro slot hslot _ hwant
        rw [deref_eq_ok.mp hs] at hslot
        injection hslot with hslot
        subst hslot
        exact absurd hwant hw
    · rw [finish_delete hrun hs hf] at hfin
      injection hfin with hfin
      subst hfin
      apply fidelity_of_except session x.kind
      · exact (fidelityOn_handlerSafe _).delete w2 session sess hF2 hs hf
      · intro slot hslot hfr
        simp only [delete_session, List.getElem?_set, if_true, deref_lt hs] at hslot
        injection hslot with hslot
        subst hslot
        cases hfr

theorem fidelity_step {e : Event} {w w1 : World} (hact : 0 < e.drive.running)
    (h0 : Fidelity w) (hown : WaitsOwned w) (hq : ClosedQuiet w) (h : step w e = .ok w1) :
    Fidelity w1 := by
  rcases step_invoke h with rfl | ⟨hd, wp, hi, hc⟩
  · exact h0
  · rcases hc with ⟨x, rest, _, rfl⟩ | ⟨rest, _, rfl⟩ | ⟨session, sess, idx, x, hs, hx, rfl, rfl⟩
    · have h1 : FidelityOn (fun _ _ => True) { w with timer_ := SteadyTimer.mk rest } := h0
      exact invoke_preserves (fidelityOn_handlerSafe _) h1 hi
    · have h1 : FidelityOn (fun _ _ => True) { w with ready := rest } := h0
      exact invoke_preserves (fidelityOn_handlerSafe _) h1 hi
    · obtain ⟨hxs, hxt⟩ := hown session ⟨sess, false⟩ (deref_eq_ok.mp hs) x
        (List.getElem?_mem hx)
      exact fidelity_fired hact (fidelity_erase h0 hs hx)
        (closedQuiet_loopSafe.waitErase w session sess idx x hq hs hx) hxs hxt hi

theorem fidelity_run :
    ∀ (evs : List Event) (w w1 : World), (∀ e ∈ evs, 0 < e.drive.running) →
      Fidelity w → WaitsOwned w → ClosedQuiet w → run evs w = .ok w1 → Fidelity w1 := by
  intro evs
  induction evs with
  | nil =>
    intro w w1 _ h0 _ _ h
    simp only [run, Except.ok.injEq] at h
    exact h ▸ h0
  | cons e es ih =>
    intro w w1 hact h0 hown hq h
    simp only [run] at h
    cases hs : step w e with
    | error f => simp [hs] at h
    | ok w2 =>
      simp only [hs] at h
      exact ih w2 w1 (fun e1 h1 => hact e1 (List.mem_cons_of_mem _ h1))
        (fidelity_step (hact e (List.mem_cons_self _ _)) h0 hown hq hs)
        (step_preserves waitsOwned_loopSafe hown hs)
        (step_preserves closedQuiet_loopSafe hq hs) h

/-- In every run of the loop a Session is deleted only after `finished_` has been set. -/
theorem deleted_only_when_finished (w0 w : World) (evs : List Event) (h0 : Initial w0)
    (hrun : run evs w0 = .ok w) :
    ∀ (q : Nat) (slot : Slot), w.heap[q]? = some slot → slot.freed = true →
      slot.obj.finished_ = true := by
  refine run_preserves freedFinished_loopSafe evs w0 w ?_ hrun
  intro q slot hq hfr
  have := (h0.1 slot (List.getElem?_mem hq)).1
  rw [this] at hfr
  cases hfr

/-- Claim C7 as stated fails: in one turn the engine declares readable and then writable for
A; after the turn no wait of A has fired, the read wait is still armed, and `newest_event_` holds
writable only. -/
theorem stale_wait_stays_armed :
    watchAt (run [exShrink] exStart) 0 = some ([.wait_read, .wait_write], CURL_POLL_OUT) := by
  decide

/-- Claim C7 as amended: in every run from the initial state in which the engine reports a positive
running count at every drive, after each turn every live Session has a wait armed for every
kind in its `newest_event_`. -/
theorem wanted_kinds_stay_armed (w0 w : World) (evs : List Event) (h0 : Initial w0)
    (hact : ∀ e ∈ evs, 0 < e.drive.running) (hrun : run evs w0 = .ok w) :
    ∀ (q : Nat) (slot : Slot), w.heap[q]? = some slot → slot.freed = false →
      ∀ k : WaitType, Int.land slot.obj.newest_event_ k.bit ≠ 0 →
        ∃ x ∈ slot.obj.socket_.waits, x.kind = k := by
  have := fidelity_run evs w0 w hact (initial_fidelity h0) (initial_waitsOwned h0)
    (initial_closedQuiet h0) hrun
  intro q slot hq hfr k hk
  exact this q slot hq hfr k trivial hk

/-- Witness of C7 as amended: the first turn of the concrete execution. -/
theorem wanted_kinds_stay_armed_witness :
    Initial exStart ∧ (∀ e ∈ [exTurn1], 0 < e.drive.running) ∧
    run [exTurn1] exStart = .ok exArmed ∧
    ∀ (q : Nat) (slot : Slot), exArmed.heap[q]? = some slot → slot.freed = false →
      ∀ k : WaitType, Int.land slot.obj.newest_event_ k.bit ≠ 0 →
        ∃ x ∈ slot.obj.socket_.waits, x.kind = k :=
  ⟨by simp [Initial, exStart, Session.create], by decide, rfl,
    wanted_kinds_stay_armed exStart exArmed [exTurn1]
      (by simp [Initial, exStart, Session.create]) (by decide) rfl⟩

end AsioLibcurl
